import Mathlib

set_option autoImplicit false

/-!
Verification of the SpatialGDK replication change-tracking and dependency-resolution
engine (`SpatialActorChannel.cpp`, `SpatialSender.cpp`).

The C++ containers are modelled shallowly:
* `TMap` becomes an insertion-ordered association list over `Nat` keys
  (`alookup` / `aset` / `aerase` mirror `Find` / `Add`-or-update / `Remove`);
* `TSet<const UObject*>` becomes a duplicate-free `List Nat`;
* pointers to engine objects (channels, objects, unresolved targets) become `Nat`
  identifiers; weak-pointer liveness checks are modelled as always-live, matching
  runs in which no tracked object is destroyed.
-/

namespace SpatialGDK

/-- Lookup in an association list, first matching key wins (mirrors `TMap::Find`). -/
def alookup {α : Type} (k : Nat) : List (Nat × α) → Option α
  | [] => none
  | (k', v) :: rest => if k' = k then some v else alookup k rest

/-- Update the value at a key in place, or append a fresh entry at the end
(mirrors `TMap::Add` / `FindOrAdd`, which preserve insertion order). -/
def aset {α : Type} (k : Nat) (v : α) : List (Nat × α) → List (Nat × α)
  | [] => [(k, v)]
  | (k', v') :: rest => if k' = k then (k, v) :: rest else (k', v') :: aset k v rest

/-- Remove the entry with the given key (mirrors `TMap::Remove`). -/
def aerase {α : Type} (k : Nat) : List (Nat × α) → List (Nat × α)
  | [] => []
  | (k', v') :: rest => if k' = k then rest else (k', v') :: aerase k rest

/-- The keys of an association list. -/
def akeys {α : Type} (l : List (Nat × α)) : List Nat := l.map (·.1)

/-! Definitions continue below; all theorems follow the definitions. -/

/-!
## The dependency resolver (`USpatialSender`)

`FChannelObjectPair` (a channel/object pair) and `const UObject*` targets are
identified by `Nat` ids.  The source's `FUnresolvedEntry` is a shared
(`TSharedPtr`) set stored in both index directions; the model stores the set
contents once, in the forward index, and the reverse index keeps only the key
structure, which is exactly what the sharing makes observable.  `FindChecked`
is modelled as a lookup with a default; on every state satisfying the
mutual-consistency invariant the looked-up entry exists, so the model and the
source agree there.
-/

abbrev Handle := Nat
abbrev ChannelObjectId := Nat
abbrev TargetId := Nat

/-- `FHandleToUnresolved`: field handle → contents of the pending unresolved-target set. -/
abbrev FHandleToUnresolved := List (Handle × List TargetId)

/-- `FChannelToHandleToUnresolved`: forward index, (channel, object) → handle map. -/
abbrev FChannelToHandleToUnresolved := List (ChannelObjectId × FHandleToUnresolved)

/-- `FOutgoingRepUpdates`: reverse index, referenced target → (channel, object) → handles. -/
abbrev FOutgoingRepUpdates := List (TargetId × List (ChannelObjectId × List Handle))

/-- One resolver container pair (the sender holds one for replicated
properties and one for handover properties). -/
structure OutgoingMaps where
  propertyToUnresolved : FChannelToHandleToUnresolved
  objectToUnresolved : FOutgoingRepUpdates
  deriving Repr, DecidableEq

def emptyMaps : OutgoingMaps := ⟨[], []⟩

/-- Forward-index lookup on the raw container. -/
def lookupFwd (fwd : FChannelToHandleToUnresolved) (co : ChannelObjectId) (h : Handle) :
    Option (List TargetId) :=
  alookup h ((alookup co fwd).getD [])

/-- Reverse-index lookup on the raw container. -/
def lookupRev (obj : FOutgoingRepUpdates) (t : TargetId) (co : ChannelObjectId) : List Handle :=
  (alookup co ((alookup t obj).getD [])).getD []

/-- The forward-index entry of a field handle, as an `Option`. -/
def fwdEntry (m : OutgoingMaps) (co : ChannelObjectId) (h : Handle) : Option (List TargetId) :=
  lookupFwd m.propertyToUnresolved co h

/-- The pending unresolved-target set of a field handle (empty if no entry). -/
def fwdSet (m : OutgoingMaps) (co : ChannelObjectId) (h : Handle) : List TargetId :=
  (fwdEntry m co h).getD []

/-- The handles recorded in the reverse index for a target under a channel/object pair. -/
def revHandles (m : OutgoingMaps) (t : TargetId) (co : ChannelObjectId) : List Handle :=
  lookupRev m.objectToUnresolved t co

/-- Reverse-index half of `USpatialSender::QueueOutgoingUpdate`: for each unresolved
object, record the handle under `(target, channelObjectPair)`; the
`check(!AnotherHandleToUnresolved.Find(Handle))` is modelled as failure (`none`). -/
def queueAddReverse (obj : FOutgoingRepUpdates) (co : ChannelObjectId) (handle : Handle) :
    List TargetId → Option FOutgoingRepUpdates
  | [] => some obj
  | t :: rest =>
    let cmap := (alookup t obj).getD []
    let hs := (alookup co cmap).getD []
    if handle ∈ hs then none
    else queueAddReverse (aset t (aset co (hs ++ [handle]) cmap) obj) co handle rest

/-- `USpatialSender::QueueOutgoingUpdate` on one container pair.  Returns `none`
when a `check` would fire (a pending entry already exists for the handle). -/
def queueOutgoingUpdate (m : OutgoingMaps) (co : ChannelObjectId) (handle : Handle)
    (unresolvedObjects : List TargetId) : Option OutgoingMaps :=
  let hmap := (alookup co m.propertyToUnresolved).getD []
  if (alookup handle hmap).isSome then none
  else
    match queueAddReverse m.objectToUnresolved co handle unresolvedObjects with
    | none => none
    | some obj' =>
      some { propertyToUnresolved := aset co (aset handle unresolvedObjects hmap) m.propertyToUnresolved
             objectToUnresolved := obj' }

/-- Reverse-index half of `USpatialSender::ResetOutgoingUpdate`: for each target the
stale entry referenced, drop the handle and clean up emptied submaps. -/
def resetRemoveReverse (obj : FOutgoingRepUpdates) (co : ChannelObjectId) (handle : Handle) :
    List TargetId → FOutgoingRepUpdates
  | [] => obj
  | t :: rest =>
    let cmap := (alookup t obj).getD []
    let hs := (alookup co cmap).getD []
    let hs' := hs.filter (· ≠ handle)
    let cmap' := if hs' = [] then aerase co cmap else aset co hs' cmap
    let obj' := if cmap' = [] then aerase t obj else aset t cmap' obj
    resetRemoveReverse obj' co handle rest

/-- `USpatialSender::ResetOutgoingUpdate` on one container pair: supersede the prior
pending entry for `(channel, object, handle)`, removing it from both indices. -/
def resetOutgoingUpdate (m : OutgoingMaps) (co : ChannelObjectId) (handle : Handle) :
    OutgoingMaps :=
  match alookup co m.propertyToUnresolved with
  | none => m
  | some hmap =>
    match alookup handle hmap with
    | none => m
    | some unresolved =>
      let obj' := resetRemoveReverse m.objectToUnresolved co handle unresolved
      let hmap' := aerase handle hmap
      let prop' := if hmap' = [] then aerase co m.propertyToUnresolved
                   else aset co hmap' m.propertyToUnresolved
      { propertyToUnresolved := prop', objectToUnresolved := obj' }

/-- One `SendComponentUpdates` call emitted by `ResolveOutgoingOperations`
(`repChanged` carries the `FRepChangeState` handle list, `handoverChanged` the
`FHandoverChangeState`). -/
structure ComponentUpdateSend where
  co : ChannelObjectId
  repChanged : Option (List Handle)
  handoverChanged : Option (List Handle)
  deriving Repr, DecidableEq

/-- Inner loop of `USpatialSender::ResolveOutgoingOperations` over the handles pending
for one channel/object pair: remove the resolved target from each entry's set; an
entry whose set empties is flushed (its handle collected, with two extra `0`
markers after a dynamic-array handle in the non-handover container) and removed
from the forward index. -/
def resolveHandleLoop (isDynamicArrayHandle : ChannelObjectId → Handle → Bool)
    (bIsHandover : Bool) (target : TargetId) (co : ChannelObjectId) :
    List Handle → FChannelToHandleToUnresolved → FChannelToHandleToUnresolved × List Handle
  | [], fwd => (fwd, [])
  | h :: rest, fwd =>
    let hmap := (alookup co fwd).getD []
    let s := (alookup h hmap).getD []
    let s' := s.filter (· ≠ target)
    if s' = [] then
      let markers := if !bIsHandover && isDynamicArrayHandle co h then [0, 0] else []
      let hmap' := aerase h hmap
      let fwd' := if hmap' = [] then aerase co fwd else aset co hmap' fwd
      let out := resolveHandleLoop isDynamicArrayHandle bIsHandover target co rest fwd'
      (out.1, (h :: markers) ++ out.2)
    else
      resolveHandleLoop isDynamicArrayHandle bIsHandover target co rest
        (aset co (aset h s' hmap) fwd)

/-- Outer loop of `ResolveOutgoingOperations` over the channel/object pairs that
reference the resolved target: the handles flushed for one pair are batched into a
single component update — terminated by a sentinel `0` in the replicated-property
case, sent as a bare handover change list otherwise. -/
def resolveChannelLoop (isDynamicArrayHandle : ChannelObjectId → Handle → Bool)
    (bIsHandover : Bool) (target : TargetId) :
    List (ChannelObjectId × List Handle) → FChannelToHandleToUnresolved →
    FChannelToHandleToUnresolved × List ComponentUpdateSend
  | [], fwd => (fwd, [])
  | (co, hs) :: rest, fwd =>
    let step := resolveHandleLoop isDynamicArrayHandle bIsHandover target co hs fwd
    let sends :=
      if step.2 = [] then []
      else if bIsHandover then [ComponentUpdateSend.mk co none (some step.2)]
      else [ComponentUpdateSend.mk co (some (step.2 ++ [0])) none]
    let restOut := resolveChannelLoop isDynamicArrayHandle bIsHandover target rest step.1
    (restOut.1, sends ++ restOut.2)

/-- `USpatialSender::ResolveOutgoingOperations` on one container pair.  A target with
no reverse-index entry is a no-op.  At the end the target's whole reverse entry is
removed. -/
def resolveOutgoingOperations (isDynamicArrayHandle : ChannelObjectId → Handle → Bool)
    (m : OutgoingMaps) (target : TargetId) (bIsHandover : Bool) :
    OutgoingMaps × List ComponentUpdateSend :=
  match alookup target m.objectToUnresolved with
  | none => (m, [])
  | some channelToUnresolved =>
    let out := resolveChannelLoop isDynamicArrayHandle bIsHandover target
      channelToUnresolved m.propertyToUnresolved
    ({ propertyToUnresolved := out.1
       objectToUnresolved := aerase target m.objectToUnresolved }, out.2)

/-- Structural well-formedness of the forward index: unique keys at both levels
and duplicate-free pending sets (they come from `TMap`s and a `TSet`). -/
def FwdWF (fwd : FChannelToHandleToUnresolved) : Prop :=
  (akeys fwd).Nodup ∧ ∀ p ∈ fwd, (akeys p.2).Nodup ∧ ∀ q ∈ p.2, q.2.Nodup

/-- Structural well-formedness of the reverse index: unique keys, duplicate-free
handle lists, and no empty submap left behind (the source removes emptied
submaps eagerly). -/
def RevWF (obj : FOutgoingRepUpdates) : Prop :=
  (akeys obj).Nodup ∧
  ∀ p ∈ obj, (akeys p.2).Nodup ∧ p.2 ≠ [] ∧ ∀ q ∈ p.2, q.2.Nodup ∧ q.2 ≠ []

/-- Structural well-formedness shared by all reachable resolver states. -/
def MapsWF (m : OutgoingMaps) : Prop :=
  FwdWF m.propertyToUnresolved ∧ RevWF m.objectToUnresolved

/-- The mutual-consistency invariant of the two index directions: a handle's
pending set contains a target exactly when the reverse index records that
handle under the target and the channel/object pair. -/
def Consistent (m : OutgoingMaps) : Prop :=
  ∀ t co h, t ∈ fwdSet m co h ↔ h ∈ revHandles m t co

/-- The handles carried by one modelled `SendComponentUpdates` call. -/
def sendHandles (s : ComponentUpdateSend) : List Handle :=
  (s.repChanged.getD []) ++ (s.handoverChanged.getD [])

/-- How many of the given update sends mention the handle for the channel/object pair. -/
def flushCount (sends : List ComponentUpdateSend) (co : ChannelObjectId) (h : Handle) : Nat :=
  sends.countP (fun s => decide (s.co = co) && decide (h ∈ sendHandles s))

/-- Declarative form of the handle list collected by `ResolveOutgoingOperations` for
one channel/object pair, read off the pre-call forward index: each handle whose
pending set empties once the target is removed contributes itself followed by the
two zero array-framing markers when it is a dynamic-array handle (non-handover
container only). -/
def collectSpec (isDynamicArrayHandle : ChannelObjectId → Handle → Bool) (bIsHandover : Bool)
    (fwd : FChannelToHandleToUnresolved) (target : TargetId) (co : ChannelObjectId)
    (handles : List Handle) : List Handle :=
  handles.foldr (fun h acc =>
    if ((lookupFwd fwd co h).getD []).filter (· ≠ target) = []
    then (h :: (if !bIsHandover && isDynamicArrayHandle co h then [0, 0] else [])) ++ acc
    else acc) []

/-- Declarative form of the update sends emitted by one `ResolveOutgoingOperations`
call: one update per channel/object pair with a non-empty collected list, the
replicated-property list terminated by a sentinel `0`, the handover list bare. -/
def sendsSpec (isDynamicArrayHandle : ChannelObjectId → Handle → Bool) (bIsHandover : Bool)
    (fwd : FChannelToHandleToUnresolved) (target : TargetId)
    (rows : List (ChannelObjectId × List Handle)) : List ComponentUpdateSend :=
  rows.foldr (fun row acc =>
    (if collectSpec isDynamicArrayHandle bIsHandover fwd target row.1 row.2 = [] then []
     else if bIsHandover then
       [ComponentUpdateSend.mk row.1 none
         (some (collectSpec isDynamicArrayHandle bIsHandover fwd target row.1 row.2))]
     else
       [ComponentUpdateSend.mk row.1
         (some (collectSpec isDynamicArrayHandle bIsHandover fwd target row.1 row.2 ++ [0]))
         none]) ++ acc) []

/-- The resolver-relevant state of `USpatialSender`: the fine-grained and the
handover container pairs. -/
structure USpatialSenderState where
  repPropertyToUnresolved : FChannelToHandleToUnresolved
  repObjectToUnresolved : FOutgoingRepUpdates
  handoverPropertyToUnresolved : FChannelToHandleToUnresolved
  handoverObjectToUnresolved : FOutgoingRepUpdates
  deriving Repr, DecidableEq

def repMaps (st : USpatialSenderState) : OutgoingMaps :=
  ⟨st.repPropertyToUnresolved, st.repObjectToUnresolved⟩

def handoverMaps (st : USpatialSenderState) : OutgoingMaps :=
  ⟨st.handoverPropertyToUnresolved, st.handoverObjectToUnresolved⟩

def withRepMaps (st : USpatialSenderState) (m : OutgoingMaps) : USpatialSenderState :=
  { st with repPropertyToUnresolved := m.propertyToUnresolved
            repObjectToUnresolved := m.objectToUnresolved }

def withHandoverMaps (st : USpatialSenderState) (m : OutgoingMaps) : USpatialSenderState :=
  { st with handoverPropertyToUnresolved := m.propertyToUnresolved
            handoverObjectToUnresolved := m.objectToUnresolved }

/-- One call into the resolver, with the `bIsHandover` flag choosing the container
pair, exactly as in the source. -/
inductive SenderOp
  | queue (co : ChannelObjectId) (handle : Handle) (unresolvedObjects : List TargetId)
      (bIsHandover : Bool)
  | reset (co : ChannelObjectId) (handle : Handle) (bIsHandover : Bool)
  | resolve (target : TargetId) (bIsHandover : Bool)

def applySenderOp (isDynamicArrayHandle : ChannelObjectId → Handle → Bool)
    (st : USpatialSenderState) : SenderOp → Option USpatialSenderState
  | SenderOp.queue co handle ts bIsHandover =>
    if bIsHandover then
      match queueOutgoingUpdate (handoverMaps st) co handle ts with
      | none => none
      | some m => some (withHandoverMaps st m)
    else
      match queueOutgoingUpdate (repMaps st) co handle ts with
      | none => none
      | some m => some (withRepMaps st m)
  | SenderOp.reset co handle bIsHandover =>
    if bIsHandover then some (withHandoverMaps st (resetOutgoingUpdate (handoverMaps st) co handle))
    else some (withRepMaps st (resetOutgoingUpdate (repMaps st) co handle))
  | SenderOp.resolve target bIsHandover =>
    if bIsHandover then
      some (withHandoverMaps st
        (resolveOutgoingOperations isDynamicArrayHandle (handoverMaps st) target true).1)
    else
      some (withRepMaps st
        (resolveOutgoingOperations isDynamicArrayHandle (repMaps st) target false).1)

/-- A freshly initialised sender: all four containers empty. -/
def initialSenderState : USpatialSenderState := ⟨[], [], [], []⟩

def runSenderOps (isDynamicArrayHandle : ChannelObjectId → Handle → Bool)
    (st : USpatialSenderState) : List SenderOp → Option USpatialSenderState
  | [] => some st
  | op :: rest =>
    match applySenderOp isDynamicArrayHandle st op with
    | none => none
    | some st' => runSenderOps isDynamicArrayHandle st' rest

/-- Both container pairs are structurally well-formed and mutually consistent. -/
def SenderInvariant (st : USpatialSenderState) : Prop :=
  MapsWF (repMaps st) ∧ Consistent (repMaps st) ∧
  MapsWF (handoverMaps st) ∧ Consistent (handoverMaps st)

/-!
## The change-history ledger (`SpatialActorChannel.cpp`)

`FRepState` (per consumer) and `FRepChangelistState` (the shared ledger written by
`FRepChangelistMgr::Update`) both use rings of `MAX_CHANGE_HISTORY` changelists;
the rings are modelled as total functions from slot index to changelist.
-/

/-- `FRepState::MAX_CHANGE_HISTORY` (and `FRepChangelistState::MAX_CHANGE_HISTORY`). -/
def MAX_CHANGE_HISTORY : Nat := 64

/-- The consumer-side replication state: its own accumulation ring
(`ChangeHistory` with `HistoryStart`/`HistoryEnd`) and its read cursor into the
shared ledger (`LastChangelistIndex`). -/
structure FRepState where
  changeHistory : Nat → List Nat
  historyStart : Nat
  historyEnd : Nat
  lastChangelistIndex : Nat
  lastCompareIndex : Nat

/-- The shared per-object ledger filled by the changelist manager. -/
structure FRepChangelistState where
  changeHistory : Nat → List Nat
  historyEnd : Nat
  compareIndex : Nat

def initialRepState : FRepState := ⟨fun _ => [], 0, 0, 0, 0⟩

/-- The retirement loop of `UpdateChangelistHistory`: clear each active history
item, failing (`check`) on an item with an empty change list. -/
def clearHistoryLoop : (Nat → List Nat) → Nat → Nat → Except String (Nat → List Nat)
  | hist, _, 0 => Except.ok hist
  | hist, i, n + 1 =>
    if hist (i % MAX_CHANGE_HISTORY) = [] then
      Except.error "All active history items should contain a change list"
    else
      clearHistoryLoop (fun j => if j = i % MAX_CHANGE_HISTORY then [] else hist j) (i + 1) n

/-- `UpdateChangelistHistory` (anonymous namespace, `SpatialActorChannel.cpp`):
the `check` macros become errors; on success every active entry is cleared,
`HistoryStart` catches up with `HistoryEnd` and both are reduced modulo the ring
capacity to avoid tiling. -/
def updateChangelistHistory (rs : FRepState) : Except String FRepState :=
  if rs.historyEnd < rs.historyStart then
    Except.error "HistoryEnd must not precede HistoryStart"
  else if MAX_CHANGE_HISTORY ≤ rs.historyEnd - rs.historyStart then
    Except.error "HistoryCount must stay below MAX_CHANGE_HISTORY"
  else
    match clearHistoryLoop rs.changeHistory rs.historyStart
        (rs.historyEnd - rs.historyStart) with
    | Except.error e => Except.error e
    | Except.ok hist' =>
      Except.ok { rs with
        changeHistory := hist'
        historyStart := rs.historyEnd % MAX_CHANGE_HISTORY
        historyEnd := rs.historyEnd % MAX_CHANGE_HISTORY }

/-- One producer append into a consumer ring, as `ReplicateActor` performs it: the
changelist is written into the slot at `HistoryEnd % MAX_CHANGE_HISTORY` and
`HistoryEnd` advances only when the changelist is non-empty. -/
def appendChangelist (rs : FRepState) (changed : List Nat) : FRepState :=
  let idx := rs.historyEnd % MAX_CHANGE_HISTORY
  let hist' := fun j => if j = idx then changed else rs.changeHistory j
  if changed = [] then { rs with changeHistory := hist' }
  else { rs with changeHistory := hist', historyEnd := rs.historyEnd + 1 }

/-- Modelled from the spec: `FRepLayout::MergeChangeList` is engine code outside
this repository; per the spec, merging accumulates the union of the two
changelists (move-aware amortised set-union). -/
def mergeChangeList (base extra : List Nat) : List Nat :=
  base ++ extra.filter (fun h => h ∉ base)

/-- The merge loop of `ReplicateActor`: fold every shared-ledger entry from the
consumer's `LastChangelistIndex` up to the ledger's `HistoryEnd` into one
accumulated changelist (whose initial value is the consumer's current ring slot). -/
def gatherMerged (cls : FRepChangelistState) (fromIdx : Nat) (initial : List Nat) : List Nat :=
  (List.range' fromIdx (cls.historyEnd - fromIdx)).foldl
    (fun acc i => mergeChangeList acc (cls.changeHistory (i % MAX_CHANGE_HISTORY))) initial

/-- The changelist-handling fragment of `USpatialActorChannel::ReplicateActor`
(merge window, append to own ring when non-empty and an update goes out, retire
via `UpdateChangelistHistory`, advance the cursor).  The second component is the
accumulated changelist when an update or entity creation was emitted. -/
def replicateActorChangelists (cls : FRepChangelistState) (rs : FRepState)
    (bCreatingNewEntity : Bool) (handoverChanged : List Nat) :
    Except String (FRepState × Option (List Nat)) :=
  let slot := rs.historyEnd % MAX_CHANGE_HISTORY
  let repChanged := gatherMerged cls rs.lastChangelistIndex (rs.changeHistory slot)
  let rs1 : FRepState := { rs with
    changeHistory := fun j => if j = slot then repChanged else rs.changeHistory j
    lastCompareIndex := cls.compareIndex }
  let doSend := bCreatingNewEntity || !repChanged.isEmpty || !handoverChanged.isEmpty
  let rs2 := if doSend && !repChanged.isEmpty then
    { rs1 with historyEnd := rs1.historyEnd + 1 } else rs1
  match updateChangelistHistory rs2 with
  | Except.error e => Except.error e
  | Except.ok rs3 =>
    Except.ok ({ rs3 with lastChangelistIndex := cls.historyEnd },
      if doSend then some repChanged else none)

/-- Two independent consumers (two `FRepState`s) reading one shared ledger. -/
structure TwoConsumerLedger where
  cls : FRepChangelistState
  primary : FRepState
  secondary : FRepState

/-- A replication pass of the primary consumer over the shared ledger; the
secondary consumer's state and the shared ledger itself are untouched by
construction, mirroring that `UpdateChangelistHistory` only writes the passed
`FRepState`. -/
def replicatePrimary (sys : TwoConsumerLedger) (bCreatingNewEntity : Bool)
    (handoverChanged : List Nat) :
    Except String (TwoConsumerLedger × Option (List Nat)) :=
  match replicateActorChangelists sys.cls sys.primary bCreatingNewEntity handoverChanged with
  | Except.error e => Except.error e
  | Except.ok out => Except.ok ({ sys with primary := out.1 }, out.2)

/-!
## The handover differ (`GetHandoverChangeList`)

Object memory and the shadow buffer are byte stores modelled as total functions
`Nat → Nat`; `UProperty::Identical` on plain handover data is byte equality of the
element-sized slices and `CopySingleValue` copies the slice.
-/

/-- `Align(v, a)` for the alignments `GetMinAlignment` returns (powers of two). -/
def align (n a : Nat) : Nat := ((n + a - 1) / a) * a

/-- `FHandoverPropertyInfo` plus the property facts `GetHandoverChangeList` reads:
replication handle, offset into the object, `ElementSize` and `GetMinAlignment`. -/
structure FHandoverPropertyInfo where
  handle : Nat
  offset : Nat
  elementSize : Nat
  minAlignment : Nat

def readBytes (mem : Nat → Nat) (off size : Nat) : List Nat :=
  (List.range size).map (fun i => mem (off + i))

def writeBytes (mem : Nat → Nat) (off : Nat) (v : List Nat) : Nat → Nat :=
  fun a => if off ≤ a ∧ a < off + v.length then v.getD (a - off) (mem a) else mem a

/-- The property walk of `USpatialActorChannel::GetHandoverChangeList`: align the
shadow cursor, compare the object bytes with the shadow bytes, and on a difference
(or when the entity is being created) record the handle and copy the bytes into
the shadow buffer. -/
def getHandoverChangeListAux (bCreatingNewEntity : Bool) (objectData : Nat → Nat) :
    List FHandoverPropertyInfo → Nat → (Nat → Nat) → List Nat × (Nat → Nat)
  | [], _, shadowData => ([], shadowData)
  | p :: rest, shadowDataOffset, shadowData =>
    let off := align shadowDataOffset p.minAlignment
    let data := readBytes objectData p.offset p.elementSize
    let stored := readBytes shadowData off p.elementSize
    if bCreatingNewEntity ∨ stored ≠ data then
      let out := getHandoverChangeListAux bCreatingNewEntity objectData rest
        (off + p.elementSize) (writeBytes shadowData off data)
      (p.handle :: out.1, out.2)
    else
      getHandoverChangeListAux bCreatingNewEntity objectData rest
        (off + p.elementSize) shadowData

def getHandoverChangeList (bCreatingNewEntity : Bool) (objectData : Nat → Nat)
    (handoverProperties : List FHandoverPropertyInfo) (shadowData : Nat → Nat) :
    List Nat × (Nat → Nat) :=
  getHandoverChangeListAux bCreatingNewEntity objectData handoverProperties 0 shadowData

/-- The aligned shadow-buffer offset of each handover property, following the same
walk as `GetHandoverChangeList` (and `InitializeHandoverShadowData`). -/
def handoverShadowOffsets : List FHandoverPropertyInfo → Nat → List Nat
  | [], _ => []
  | p :: rest, off =>
    align off p.minAlignment :: handoverShadowOffsets rest (align off p.minAlignment + p.elementSize)

/-- Declarative changed set: the handles of exactly those handover properties whose
current packed bytes differ from the shadow-buffer bytes. -/
def handoverChangedSpec (objectData shadowData : Nat → Nat)
    (handoverProperties : List FHandoverPropertyInfo) : List Nat :=
  ((handoverProperties.zip (handoverShadowOffsets handoverProperties 0)).filter
    (fun pz => readBytes shadowData pz.2 pz.1.elementSize ≠
      readBytes objectData pz.1.offset pz.1.elementSize)).map (fun pz => pz.1.handle)

/-!
## The initial change state (`CreateInitialRepChangeState`)
-/

/-- The command kinds `CreateInitialRepChangeState` distinguishes:
`REPCMD_DynamicArray`, `REPCMD_Return`, and every other property command. -/
inductive RepCmdType
  | dynamicArray
  | ret
  | property
  deriving Repr, DecidableEq

/-- One `FRepLayoutCmd` as read by `CreateInitialRepChangeState`: its
`RelativeHandle`, its type, and `EndCmd` (one past the array's terminating null). -/
structure RepLayoutCmd where
  relativeHandle : Nat
  type : RepCmdType
  endCmd : Nat
  deriving Repr, DecidableEq

/-- The command walk of `USpatialActorChannel::CreateInitialRepChangeState`: every
command contributes its relative handle; a dynamic array entered at root level
additionally contributes the count marker `(EndCmd - CmdIdx) - 2` right after its
handle. -/
def createInitialRepChangeStateAux : List RepLayoutCmd → Nat → Nat → List Nat
  | [], _, _ => []
  | cmd :: rest, cmdIdx, dynamicArrayDepth =>
    match cmd.type with
    | RepCmdType.dynamicArray =>
      cmd.relativeHandle ::
        ((if dynamicArrayDepth + 1 = 1 then [cmd.endCmd - cmdIdx - 2] else []) ++
          createInitialRepChangeStateAux rest (cmdIdx + 1) (dynamicArrayDepth + 1))
    | RepCmdType.ret =>
      cmd.relativeHandle ::
        createInitialRepChangeStateAux rest (cmdIdx + 1) (dynamicArrayDepth - 1)
    | RepCmdType.property =>
      cmd.relativeHandle ::
        createInitialRepChangeStateAux rest (cmdIdx + 1) dynamicArrayDepth

def createInitialRepChangeState (cmds : List RepLayoutCmd) : List Nat :=
  createInitialRepChangeStateAux cmds 0 0

/-- A structurally well-formed root-level layout item: a plain property command, or
a dynamic array (handle plus its interior commands, excluding the terminating
null). -/
inductive RepLayoutChunk
  | prop (handle : Nat)
  | arr (handle : Nat) (interior : List RepLayoutCmd)

/-- Balance of interior commands at nesting depth `d ≥ 1`: arrays push, returns pop
but never leave the enclosing array, and the depth returns to `1`. -/
def interiorBalanced : List RepLayoutCmd → Nat → Bool
  | [], d => decide (d = 1)
  | cmd :: rest, d =>
    match cmd.type with
    | RepCmdType.dynamicArray => interiorBalanced rest (d + 1)
    | RepCmdType.ret => decide (2 ≤ d) && interiorBalanced rest (d - 1)
    | RepCmdType.property => interiorBalanced rest d

def chunksWF (chunks : List RepLayoutChunk) : Prop :=
  ∀ c ∈ chunks, ∀ h interior, c = RepLayoutChunk.arr h interior →
    interiorBalanced interior 1 = true

/-- Encode root-level chunks into an `FRepLayoutCmd` list with correct absolute
`EndCmd` values (one past the array's terminating `REPCMD_Return`). -/
def chunkCmds : List RepLayoutChunk → Nat → List RepLayoutCmd
  | [], _ => []
  | RepLayoutChunk.prop h :: rest, idx =>
    RepLayoutCmd.mk h RepCmdType.property 0 :: chunkCmds rest (idx + 1)
  | RepLayoutChunk.arr h interior :: rest, idx =>
    RepLayoutCmd.mk h RepCmdType.dynamicArray (idx + interior.length + 2) ::
      (interior ++ (RepLayoutCmd.mk 0 RepCmdType.ret 0 ::
        chunkCmds rest (idx + interior.length + 2)))

/-- A full command list: the root-level chunks followed by the list-terminating
`REPCMD_Return`, as `FRepLayout` lays commands out. -/
def toRepLayoutCmds (chunks : List RepLayoutChunk) : List RepLayoutCmd :=
  chunkCmds chunks 0 ++ [RepLayoutCmd.mk 0 RepCmdType.ret 0]

/-- The handle-list contribution of one chunk: a plain handle, or — for an array —
the handle, then the count marker (the number of interior commands, letting a
consumer skip the interior without schema knowledge), then the interior handles,
then the terminating null's handle `0`. -/
def chunkEmit : RepLayoutChunk → List Nat
  | RepLayoutChunk.prop h => [h]
  | RepLayoutChunk.arr h interior =>
    h :: interior.length :: (interior.map (·.relativeHandle) ++ [0])

def initialRepChangeSpec (chunks : List RepLayoutChunk) : List Nat :=
  chunks.foldr (fun c acc => chunkEmit c ++ acc) [] ++ [0]

/-!
## Replication-pass emission, entity-creation responses, RPC dispatch
-/

/-- The outward effects the emission fragment of `ReplicateActor` can have. -/
inductive ReplicateAction
  | enqueueForWorkingSet
  | createWorkingSet
  | sendCreateEntityRequest
  | sendComponentUpdate (repChanged : List Nat) (handoverChanged : List Nat)
  deriving Repr, DecidableEq

/-- The emission fragment of `USpatialActorChannel::ReplicateActor` (lines 299-344):
if anything changed or the entity is being created, route through entity creation
(working set or direct) when `bCreatingNewEntity` is set and through a component
update otherwise; afterwards the flag is cleared.  Returns
(actions, bWroteSomethingImportant, bCreatingNewEntity afterwards). -/
def replicateActorEmit (bCreatingNewEntity : Bool) (bIsValidWorkingSet : Bool)
    (workingSetSizeAfterEnqueue : Nat) (repChanged handoverChanged : List Nat) :
    List ReplicateAction × Bool × Bool :=
  if bCreatingNewEntity ∨ repChanged ≠ [] ∨ handoverChanged ≠ [] then
    ((if bCreatingNewEntity then
        (if bIsValidWorkingSet then
          ReplicateAction.enqueueForWorkingSet ::
            (if workingSetSizeAfterEnqueue = 3 then [ReplicateAction.createWorkingSet] else [])
        else [ReplicateAction.sendCreateEntityRequest])
      else [ReplicateAction.sendComponentUpdate repChanged handoverChanged]),
     true,
     if bCreatingNewEntity then false else bCreatingNewEntity)
  else ([], false, if bCreatingNewEntity then false else bCreatingNewEntity)

/-- The outward effects of `SetChannelActor`'s entity-id branch. -/
inductive SetChannelActorAction
  | sendReserveEntityIdRequest
  | addActorChannel (entityId : Nat)
  deriving Repr, DecidableEq

/-- The entity-id branch of `USpatialActorChannel::SetChannelActor`: with no
registry entry the channel marks itself as creating a new entity and issues a
reserve-entity-id request; otherwise it just registers the pairing.  Returns
(bCreatingNewEntity, actions). -/
def setChannelActorEntity (entityIdFromRegistry : Nat) :
    Bool × List SetChannelActorAction :=
  if entityIdFromRegistry = 0 then
    (true, [SetChannelActorAction.sendReserveEntityIdRequest])
  else
    (false, [SetChannelActorAction.addActorChannel entityIdFromRegistry])

/-- `WORKER_STATUS_CODE_SUCCESS` from `c_worker.h`. -/
def WORKER_STATUS_CODE_SUCCESS : Nat := 1

structure Worker_ReserveEntityIdResponseOp where
  statusCode : Nat
  entityId : Nat
  deriving Repr, DecidableEq

structure Worker_CreateEntityResponseOp where
  statusCode : Nat
  deriving Repr, DecidableEq

structure ChannelEntityState where
  entityId : Nat
  deriving Repr, DecidableEq

inductive ResponseAction
  | logWarning
  | logError
  | logVerbose
  | sendReserveEntityIdRequest
  | sendCreateEntityRequest (components : List Nat)
  | registerEntityId (entityId : Nat)
  deriving Repr, DecidableEq

/-- `USpatialActorChannel::OnReserveEntityIdResponse`: a dead actor only logs; a
failure status logs and re-issues the same reserve request; success records the
entity id and registers it. -/
def onReserveEntityIdResponse (actorAlive : Bool) (st : ChannelEntityState)
    (op : Worker_ReserveEntityIdResponseOp) : ChannelEntityState × List ResponseAction :=
  if !actorAlive then (st, [ResponseAction.logWarning])
  else if op.statusCode ≠ WORKER_STATUS_CODE_SUCCESS then
    (st, [ResponseAction.logError, ResponseAction.sendReserveEntityIdRequest])
  else
    ({ st with entityId := op.entityId },
     [ResponseAction.logVerbose, ResponseAction.registerEntityId op.entityId])

/-- `USpatialActorChannel::OnCreateEntityResponse`: a dead actor only logs; a
failure status logs and re-issues the create request, recomposing the component
set from the (unchanged) channel state; success only logs. -/
def onCreateEntityResponse (actorAlive : Bool)
    (composeComponents : ChannelEntityState → List Nat) (st : ChannelEntityState)
    (op : Worker_CreateEntityResponseOp) : ChannelEntityState × List ResponseAction :=
  if !actorAlive then (st, [ResponseAction.logWarning])
  else if op.statusCode ≠ WORKER_STATUS_CODE_SUCCESS then
    (st, [ResponseAction.logError,
      ResponseAction.sendCreateEntityRequest (composeComponents st)])
  else (st, [ResponseAction.logVerbose])

/-- The RPC kinds of `ERPCType`. -/
inductive ERPCType
  | client
  | server
  | crossServer
  | netMulticast
  deriving Repr, DecidableEq

/-- The part of `FRPCInfo` that `SendRPC` reads. -/
structure FRPCInfo where
  rpcType : ERPCType
  index : Nat
  deriving Repr, DecidableEq

/-- `FPendingRPCParams` (target object, function, copied parameter block). -/
structure FPendingRPCParams where
  targetObject : Nat
  functionId : Nat
  parameters : Nat
  deriving Repr, DecidableEq

abbrev FOutgoingRPCMap := List (TargetId × List FPendingRPCParams)

inductive SendRPCAction
  | sendCommandRequest (entityId componentId commandIndex : Nat)
  | sendComponentUpdate (entityId componentId : Nat)
  deriving Repr, DecidableEq

structure SendRPCResult where
  outgoingRPCs : FOutgoingRPCMap
  actions : List SendRPCAction
  parametersDestroyed : Bool
  deriving Repr, DecidableEq

/-- `USpatialSender::SendRPC`.  `classInfo` is the typebinding-manager lookup for
the target's class (`none` when the class is not registered).  `targetEntity` is
the entity id behind the target's object ref (`none` when the target itself is
unresolved); `payloadUnresolved` is the first unresolved object found while
serialising the parameters.  The command/update construction and transmission
happen only when nothing is unresolved; an unresolved RPC is queued under its
blocking object; parameters are destroyed only when the sender owns them and the
RPC went out. -/
def sendRPC (outgoingRPCs : FOutgoingRPCMap) (classInfo : Option FRPCInfo)
    (targetObject functionId parameters : Nat) (targetEntity : Option Nat)
    (payloadUnresolved : Option TargetId) (rpcComponentId : Nat)
    (bOwnParameters : Bool) : SendRPCResult :=
  match classInfo with
  | none => SendRPCResult.mk outgoingRPCs [] false
  | some rpcInfo =>
    let unresolvedObject : Option TargetId :=
      match targetEntity with
      | none => some targetObject
      | some _ => payloadUnresolved
    let actions : List SendRPCAction :=
      match unresolvedObject, targetEntity with
      | none, some entityId =>
        match rpcInfo.rpcType with
        | ERPCType.netMulticast => [SendRPCAction.sendComponentUpdate entityId rpcComponentId]
        | _ => [SendRPCAction.sendCommandRequest entityId rpcComponentId (rpcInfo.index + 1)]
      | _, _ => []
    match unresolvedObject with
    | some unresolved =>
      SendRPCResult.mk
        (aset unresolved (((alookup unresolved outgoingRPCs).getD []) ++
          [FPendingRPCParams.mk targetObject functionId parameters]) outgoingRPCs)
        actions false
    | none => SendRPCResult.mk outgoingRPCs actions bOwnParameters

/-!
## Concrete closed instances

Small concrete states used to evaluate the development's theorems on closed
inputs; each is reachable in the source (the resolver states by queueing, the
ledger state by one producer append).
-/

/-- No handle is a dynamic-array handle. -/
def isArrNoneW : ChannelObjectId → Handle → Bool := fun _ _ => false

/-- Handle `7` is a dynamic-array handle. -/
def isArr7W : ChannelObjectId → Handle → Bool := fun _ h => decide (h = 7)

/-- Queue one pending entry: handle `5` of channel/object pair `1` waiting on the
targets `10`, `11` and `12`. -/
def senderOpsW : List SenderOp := [SenderOp.queue 1 5 [10, 11, 12] false]

/-- The sender state `senderOpsW` reaches from a freshly initialised sender. -/
def senderStateW : USpatialSenderState :=
  ⟨[(1, [(5, [10, 11, 12])])],
   [(10, [(1, [5])]), (11, [(1, [5])]), (12, [(1, [5])])], [], []⟩

/-- Queue two pending entries on channel/object pair `1`, both waiting on target
`10` only: the plain handle `5` and the dynamic-array handle `7`. -/
def senderOpsArrW : List SenderOp :=
  [SenderOp.queue 1 5 [10] false, SenderOp.queue 1 7 [10] false]

/-- The sender state `senderOpsArrW` reaches from a freshly initialised sender. -/
def senderStateArrW : USpatialSenderState :=
  ⟨[(1, [(5, [10]), (7, [10])])], [(10, [(1, [5, 7])])], [], []⟩

/-- A two-consumer ledger: the shared ledger holds one changelist `[3]`, the
primary consumer's own ring holds one unretired changelist `[1]`. -/
def ledgerW : TwoConsumerLedger :=
  ⟨⟨fun j => if j = 0 then [3] else [], 1, 7⟩,
   ⟨fun j => if j = 0 then [1] else [], 0, 1, 0, 0⟩,
   ⟨fun _ => [], 0, 0, 0, 0⟩⟩

/-- Two handover properties: handles `21` and `22`, element sizes `2` and `4`,
both with minimum alignment `4`. -/
def handoverPropsW : List FHandoverPropertyInfo := [⟨21, 0, 2, 4⟩, ⟨22, 8, 4, 4⟩]

/-- A root-level layout: a property, a dynamic array with one interior property,
and another property. -/
def chunksW : List RepLayoutChunk :=
  [RepLayoutChunk.prop 1,
   RepLayoutChunk.arr 2 [RepLayoutCmd.mk 3 RepCmdType.property 0],
   RepLayoutChunk.prop 4]

-- DEFS-END

@[simp] theorem alookup_nil {α : Type} (k : Nat) : alookup k ([] : List (Nat × α)) = none := rfl

theorem alookup_cons {α : Type} (k k' : Nat) (v : α) (l : List (Nat × α)) :
    alookup k ((k', v) :: l) = if k' = k then some v else alookup k l := rfl

@[simp] theorem alookup_aset_self {α : Type} (k : Nat) (v : α) (l : List (Nat × α)) :
    alookup k (aset k v l) = some v := by
  induction l with
  | nil => simp [aset, alookup]
  | cons p rest ih =>
    obtain ⟨k', v'⟩ := p
    by_cases h : k' = k
    · simp [aset, alookup, h]
    · simp [aset, alookup, h, ih]

theorem alookup_aset_ne {α : Type} {k k' : Nat} (h : k' ≠ k) (v : α) (l : List (Nat × α)) :
    alookup k' (aset k v l) = alookup k' l := by
  induction l with
  | nil => simp [aset, alookup, Ne.symm h]
  | cons p rest ih =>
    obtain ⟨k'', v''⟩ := p
    by_cases hk : k'' = k
    · subst hk
      simp [aset, alookup, Ne.symm h, ih]
    · simp [aset, alookup, hk, ih]

theorem alookup_eq_none {α : Type} {k : Nat} {l : List (Nat × α)} (h : k ∉ akeys l) :
    alookup k l = none := by
  induction l with
  | nil => rfl
  | cons p rest ih =>
    obtain ⟨k', v'⟩ := p
    simp only [akeys, List.map_cons, List.mem_cons] at h
    push_neg at h
    simp only [alookup, if_neg (fun hh : k' = k => h.1 hh.symm)]
    exact ih h.2

theorem alookup_mem_akeys {α : Type} {k : Nat} {l : List (Nat × α)} (h : k ∈ akeys l) :
    ∃ v, alookup k l = some v := by
  induction l with
  | nil => simp [akeys] at h
  | cons p rest ih =>
    obtain ⟨k', v'⟩ := p
    by_cases hk : k' = k
    · subst hk
      exact ⟨v', by simp [alookup]⟩
    · simp only [alookup, if_neg hk]
      apply ih
      rcases List.mem_cons.mp h with h1 | h1
      · exact absurd h1.symm hk
      · exact h1

theorem alookup_aerase_self {α : Type} (k : Nat) (l : List (Nat × α))
    (hnd : (akeys l).Nodup) : alookup k (aerase k l) = none := by
  induction l with
  | nil => simp [aerase]
  | cons p rest ih =>
    obtain ⟨k', v'⟩ := p
    simp only [akeys, List.map_cons, List.nodup_cons] at hnd
    by_cases h : k' = k
    · subst h
      simp only [aerase, if_pos rfl]
      exact alookup_eq_none hnd.1
    · simp only [aerase, if_neg h, alookup, if_neg h]
      exact ih hnd.2

theorem alookup_aerase_ne {α : Type} {k k' : Nat} (h : k' ≠ k) (l : List (Nat × α)) :
    alookup k' (aerase k l) = alookup k' l := by
  induction l with
  | nil => simp [aerase]
  | cons p rest ih =>
    obtain ⟨k'', v''⟩ := p
    by_cases hk : k'' = k
    · subst hk
      simp [aerase, alookup, Ne.symm h]
    · simp only [aerase, if_neg hk, alookup]
      by_cases hk' : k'' = k'
      · simp [hk']
      · simp [hk', ih]

theorem mem_akeys_aset {α : Type} (k k' : Nat) (v : α) (l : List (Nat × α)) :
    k' ∈ akeys (aset k v l) ↔ k' = k ∨ k' ∈ akeys l := by
  induction l with
  | nil => simp [aset, akeys]
  | cons p rest ih =>
    obtain ⟨k'', v''⟩ := p
    by_cases h : k'' = k
    · subst h
      simp only [aset, if_true, eq_self_iff_true, akeys, List.map_cons, List.mem_cons]
      tauto
    · simp only [aset, if_neg h, akeys, List.map_cons, List.mem_cons]
      rw [show (List.map (fun x => x.1) (aset k v rest)) = akeys (aset k v rest) from rfl, ih]
      tauto

theorem akeys_aset_nodup {α : Type} (k : Nat) (v : α) (l : List (Nat × α))
    (hnd : (akeys l).Nodup) : (akeys (aset k v l)).Nodup := by
  induction l with
  | nil => simp [aset, akeys]
  | cons p rest ih =>
    obtain ⟨k', v'⟩ := p
    simp only [akeys, List.map_cons, List.nodup_cons] at hnd
    by_cases h : k' = k
    · subst h
      simp only [aset, if_true, eq_self_iff_true, akeys, List.map_cons, List.nodup_cons]
      exact hnd
    · simp only [aset, if_neg h, akeys, List.map_cons, List.nodup_cons]
      refine ⟨?_, ih hnd.2⟩
      intro hmem
      rcases (mem_akeys_aset k k' v rest).mp hmem with h1 | h1
      · exact h h1
      · exact hnd.1 h1

theorem akeys_aerase_sublist {α : Type} (k : Nat) (l : List (Nat × α)) :
    (akeys (aerase k l)).Sublist (akeys l) := by
  induction l with
  | nil => simp [aerase]
  | cons p rest ih =>
    obtain ⟨k', v'⟩ := p
    by_cases h : k' = k
    · simp only [aerase, if_pos h, akeys, List.map_cons]
      exact (List.sublist_cons_self _ _)
    · simp only [aerase, if_neg h, akeys, List.map_cons]
      exact ih.cons₂ _

theorem akeys_aerase_nodup {α : Type} (k : Nat) (l : List (Nat × α))
    (hnd : (akeys l).Nodup) : (akeys (aerase k l)).Nodup :=
  (akeys_aerase_sublist k l).nodup hnd

theorem alookup_mem {α : Type} {k : Nat} {v : α} {l : List (Nat × α)}
    (h : alookup k l = some v) : (k, v) ∈ l := by
  induction l with
  | nil => simp [alookup] at h
  | cons p rest ih =>
    obtain ⟨k', v'⟩ := p
    by_cases hk : k' = k
    · subst hk
      simp only [alookup, if_true, eq_self_iff_true, Option.some.injEq] at h
      subst h
      exact List.mem_cons_self _ _
    · simp only [alookup, if_neg hk] at h
      exact List.mem_cons_of_mem _ (ih h)

theorem mem_aset {α : Type} {p : Nat × α} {k : Nat} {v : α} {l : List (Nat × α)}
    (h : p ∈ aset k v l) : p = (k, v) ∨ p ∈ l := by
  induction l with
  | nil => simpa [aset] using h
  | cons q rest ih =>
    obtain ⟨k', v'⟩ := q
    by_cases hk : k' = k
    · subst hk
      rcases (by simpa [aset] using h : p = (k', v) ∨ p ∈ rest) with h1 | h1
      · exact Or.inl h1
      · exact Or.inr (List.mem_cons_of_mem _ h1)
    · rcases (by simpa [aset, hk] using h : p = (k', v') ∨ p ∈ aset k v rest) with h1 | h1
      · exact Or.inr (by simp [h1])
      · rcases ih h1 with h2 | h2
        · exact Or.inl h2
        · exact Or.inr (List.mem_cons_of_mem _ h2)

theorem mem_aerase {α : Type} {p : Nat × α} {k : Nat} {l : List (Nat × α)}
    (h : p ∈ aerase k l) : p ∈ l := by
  induction l with
  | nil => simp [aerase] at h
  | cons q rest ih =>
    obtain ⟨k', v'⟩ := q
    by_cases hk : k' = k
    · subst hk
      exact List.mem_cons_of_mem _ (by simpa [aerase] using h)
    · rcases (by simpa [aerase, hk] using h : p = (k', v') ∨ p ∈ aerase k rest) with h1 | h1
      · simp [h1]
      · exact List.mem_cons_of_mem _ (ih h1)

theorem aset_ne_nil {α : Type} (k : Nat) (v : α) (l : List (Nat × α)) : aset k v l ≠ [] := by
  cases l with
  | nil => simp [aset]
  | cons p rest =>
    obtain ⟨k', v'⟩ := p
    by_cases h : k' = k <;> simp [aset, h]

theorem aerase_eq_nil {α : Type} {k : Nat} {l : List (Nat × α)} (h : aerase k l = []) :
    l = [] ∨ ∃ v, l = [(k, v)] := by
  cases l with
  | nil => exact Or.inl rfl
  | cons p rest =>
    obtain ⟨k', v'⟩ := p
    by_cases hk : k' = k
    · subst hk
      simp only [aerase, if_true, eq_self_iff_true] at h
      exact Or.inr ⟨v', by rw [h]⟩
    · simp [aerase, hk] at h

/-- Updating one row of the forward index (the shape used by `QueueOutgoingUpdate` and
by the still-pending branch of `ResolveOutgoingOperations`). -/
theorem lookupFwd_update (fwd : FChannelToHandleToUnresolved) (co : ChannelObjectId)
    (h : Handle) (v : List TargetId) (co'' : ChannelObjectId) (h'' : Handle) :
    lookupFwd (aset co (aset h v ((alookup co fwd).getD [])) fwd) co'' h'' =
      if co'' = co ∧ h'' = h then some v else lookupFwd fwd co'' h'' := by
  unfold lookupFwd
  by_cases hco : co'' = co
  · subst hco
    rw [alookup_aset_self]
    by_cases hh : h'' = h
    · subst hh
      simp [alookup_aset_self]
    · simp only [hh, and_false, if_false, Option.getD_some]
      exact alookup_aset_ne hh v _
  · simp only [hco, false_and, if_false]
    rw [alookup_aset_ne hco]

/-- Removing one handle from a row of the forward index, with eager cleanup of an
emptied row (the shape used by `ResetOutgoingUpdate` and by the flush branch of
`ResolveOutgoingOperations`). -/
theorem lookupFwd_eraseHandle (fwd : FChannelToHandleToUnresolved) (co : ChannelObjectId)
    (h : Handle) (co'' : ChannelObjectId) (h'' : Handle)
    (htop : (akeys fwd).Nodup) (hrow : (akeys ((alookup co fwd).getD [])).Nodup) :
    lookupFwd
      (if aerase h ((alookup co fwd).getD []) = [] then aerase co fwd
       else aset co (aerase h ((alookup co fwd).getD [])) fwd) co'' h'' =
      if co'' = co ∧ h'' = h then none else lookupFwd fwd co'' h'' := by
  unfold lookupFwd
  by_cases hco : co'' = co
  · subst hco
    by_cases hnil : aerase h ((alookup co'' fwd).getD []) = []
    · rw [if_pos hnil, alookup_aerase_self co'' fwd htop]
      simp only [Option.getD_none]
      by_cases hh : h'' = h
      · simp [hh]
      · simp only [hh, and_false, if_false]
        have h2 : alookup h'' ((alookup co'' fwd).getD []) = none := by
          rw [← alookup_aerase_ne hh ((alookup co'' fwd).getD []), hnil]
          rfl
        rw [h2]
        rfl
    · rw [if_neg hnil, alookup_aset_self]
      simp only [Option.getD_some]
      by_cases hh : h'' = h
      · subst hh
        simp [alookup_aerase_self _ _ hrow]
      · simp only [hh, and_false, if_false]
        exact alookup_aerase_ne hh _
  · simp only [hco, false_and, if_false]
    by_cases hnil : aerase h ((alookup co fwd).getD []) = []
    · rw [if_pos hnil, alookup_aerase_ne hco]
    · rw [if_neg hnil, alookup_aset_ne hco]

/-- Updating one cell of the reverse index (the shape used by `queueAddReverse`). -/
theorem lookupRev_update (obj : FOutgoingRepUpdates) (t : TargetId) (co : ChannelObjectId)
    (v : List Handle) (t'' : TargetId) (co'' : ChannelObjectId) :
    lookupRev (aset t (aset co v ((alookup t obj).getD [])) obj) t'' co'' =
      if t'' = t ∧ co'' = co then v else lookupRev obj t'' co'' := by
  unfold lookupRev
  by_cases ht : t'' = t
  · subst ht
    rw [alookup_aset_self]
    by_cases hco : co'' = co
    · subst hco
      simp [alookup_aset_self]
    · simp only [hco, and_false, if_false, Option.getD_some]
      rw [alookup_aset_ne hco]
  · simp only [ht, false_and, if_false]
    rw [alookup_aset_ne ht]

/-- Replacing the handle list of one reverse-index cell with a (possibly empty) new
list, with eager cleanup of emptied submaps (the shape used by `resetRemoveReverse`). -/
theorem lookupRev_replace (obj : FOutgoingRepUpdates) (t : TargetId) (co : ChannelObjectId)
    (hs' : List Handle) (t'' : TargetId) (co'' : ChannelObjectId)
    (htop : (akeys obj).Nodup) (hrow : (akeys ((alookup t obj).getD [])).Nodup) :
    lookupRev
      (if (if hs' = [] then aerase co ((alookup t obj).getD [])
           else aset co hs' ((alookup t obj).getD [])) = []
       then aerase t obj
       else aset t (if hs' = [] then aerase co ((alookup t obj).getD [])
                    else aset co hs' ((alookup t obj).getD [])) obj) t'' co'' =
      if t'' = t ∧ co'' = co then hs' else lookupRev obj t'' co'' := by
  unfold lookupRev
  set cmap := (alookup t obj).getD [] with hcmap
  set cmap' := if hs' = [] then aerase co cmap else aset co hs' cmap with hcmap'
  by_cases ht : t'' = t
  · subst ht
    by_cases hnil : cmap' = []
    · rw [if_pos hnil, alookup_aerase_self t'' obj htop]
      simp only [Option.getD_none]
      -- cmap' empty: in the aset branch impossible, so hs' = [] and cmap ⊆ [(co, _)]
      by_cases hsnil : hs' = []
      · subst hsnil
        rw [hcmap'] at hnil
        simp only [if_true, eq_self_iff_true] at hnil
        by_cases hco : co'' = co
        · simp [hco]
        · simp only [hco, and_false, if_false]
          have hne : co ≠ co'' := fun hh => hco hh.symm
          rcases aerase_eq_nil hnil with hc | ⟨v, hc⟩
          · rw [← hcmap, hc]
          · rw [← hcmap, hc]
            simp [alookup, hne]
      · exfalso
        rw [hcmap'] at hnil
        simp only [if_neg hsnil] at hnil
        exact aset_ne_nil _ _ _ hnil
    · rw [if_neg hnil, alookup_aset_self]
      simp only [Option.getD_some]
      by_cases hco : co'' = co
      · subst hco
        rw [hcmap']
        by_cases hsnil : hs' = []
        · subst hsnil
          simp [alookup_aerase_self _ _ hrow]
        · simp [if_neg hsnil, alookup_aset_self]
      · simp only [hco, and_false, if_false]
        rw [hcmap']
        by_cases hsnil : hs' = []
        · simp only [if_pos hsnil]
          rw [alookup_aerase_ne hco]
        · simp only [if_neg hsnil]
          rw [alookup_aset_ne hco]
  · simp only [ht, false_and, if_false]
    by_cases hnil : cmap' = []
    · rw [if_pos hnil, alookup_aerase_ne ht]
    · rw [if_neg hnil, alookup_aset_ne ht]

theorem rowWF_of_lookupRev {obj : FOutgoingRepUpdates} (hwf : RevWF obj) (t : TargetId) :
    (akeys ((alookup t obj).getD [])).Nodup ∧
    ∀ q ∈ (alookup t obj).getD [], q.2.Nodup ∧ q.2 ≠ [] := by
  cases hl : alookup t obj with
  | none => simp [akeys]
  | some c =>
    have h := hwf.2 (t, c) (alookup_mem hl)
    exact ⟨h.1, h.2.2⟩

theorem rowWF_of_lookupFwd {fwd : FChannelToHandleToUnresolved} (hwf : FwdWF fwd)
    (co : ChannelObjectId) :
    (akeys ((alookup co fwd).getD [])).Nodup ∧
    ∀ q ∈ (alookup co fwd).getD [], q.2.Nodup := by
  cases hl : alookup co fwd with
  | none => simp [akeys]
  | some c =>
    exact hwf.2 (co, c) (alookup_mem hl)

theorem nodup_of_lookupRev {obj : FOutgoingRepUpdates} (hwf : RevWF obj)
    (t : TargetId) (co : ChannelObjectId) : (lookupRev obj t co).Nodup := by
  unfold lookupRev
  cases hl : alookup co ((alookup t obj).getD []) with
  | none => simp
  | some hs =>
    exact ((rowWF_of_lookupRev hwf t).2 (co, hs) (alookup_mem hl)).1

theorem nodup_of_lookupFwd {fwd : FChannelToHandleToUnresolved} (hwf : FwdWF fwd)
    (co : ChannelObjectId) (h : Handle) {s : List TargetId}
    (hl : lookupFwd fwd co h = some s) : s.Nodup :=
  (rowWF_of_lookupFwd hwf co).2 (h, s) (alookup_mem hl)

/-- If the handle is already indexed under some target the reverse loop of
`QueueOutgoingUpdate` reaches, the `check` fires (the call fails). -/
theorem queueAddReverse_none_of_mem {obj : FOutgoingRepUpdates} {co : ChannelObjectId}
    {handle : Handle} {t : TargetId} {ts : List TargetId}
    (hmem : t ∈ ts) (hh : handle ∈ lookupRev obj t co) :
    queueAddReverse obj co handle ts = none := by
  induction ts generalizing obj with
  | nil => cases hmem
  | cons t' rest ih =>
    simp only [queueAddReverse]
    by_cases hdup : handle ∈ (alookup co ((alookup t' obj).getD [])).getD []
    · rw [if_pos hdup]
    · have ht' : t ≠ t' := by
        intro hx
        subst hx
        exact hdup hh
      rw [if_neg hdup]
      rcases List.mem_cons.mp hmem with h1 | h1
      · exact absurd h1 ht'
      · apply ih h1
        rw [lookupRev_update]
        simp only [ht', false_and, if_false]
        exact hh

/-- Effect of the reverse loop of `QueueOutgoingUpdate` on reverse-index lookups. -/
theorem queueAddReverse_char {obj obj' : FOutgoingRepUpdates} {co : ChannelObjectId}
    {handle : Handle} {ts : List TargetId}
    (h : queueAddReverse obj co handle ts = some obj') :
    ∀ t'' co'', lookupRev obj' t'' co'' =
      if t'' ∈ ts ∧ co'' = co then lookupRev obj t'' co'' ++ [handle]
      else lookupRev obj t'' co'' := by
  induction ts generalizing obj with
  | nil =>
    simp only [queueAddReverse, Option.some.injEq] at h
    subst h
    intro t'' co''
    simp
  | cons t rest ih =>
    simp only [queueAddReverse] at h
    by_cases hdup : handle ∈ (alookup co ((alookup t obj).getD [])).getD []
    · rw [if_pos hdup] at h
      cases h
    · rw [if_neg hdup] at h
      have hstep := lookupRev_update obj t co
        (((alookup co ((alookup t obj).getD [])).getD []) ++ [handle])
      have hnotin : t ∉ rest := by
        intro hmem
        have hin : handle ∈ lookupRev
            (aset t (aset co (((alookup co ((alookup t obj).getD [])).getD []) ++ [handle])
              ((alookup t obj).getD [])) obj) t co := by
          rw [hstep t co]
          simp
        rw [queueAddReverse_none_of_mem hmem hin] at h
        cases h
      have hchar := ih h
      intro t'' co''
      rw [hchar t'' co'', hstep t'' co'']
      by_cases hco : co'' = co
      · subst hco
        by_cases ht : t'' = t
        · subst ht
          simp only [hnotin, false_and, if_false, and_true, if_true, eq_self_iff_true,
            List.mem_cons, true_or]
          rfl
        · simp only [ht, false_and, if_false, List.mem_cons]
          by_cases hr : t'' ∈ rest <;> simp [hr, ht]
      · simp [hco]

/-- The reverse loop of `QueueOutgoingUpdate` preserves reverse-index well-formedness. -/
theorem queueAddReverse_wf {obj obj' : FOutgoingRepUpdates} {co : ChannelObjectId}
    {handle : Handle} {ts : List TargetId} (hwf : RevWF obj)
    (h : queueAddReverse obj co handle ts = some obj') : RevWF obj' := by
  induction ts generalizing obj with
  | nil =>
    simp only [queueAddReverse, Option.some.injEq] at h
    subst h
    exact hwf
  | cons t rest ih =>
    simp only [queueAddReverse] at h
    by_cases hdup : handle ∈ (alookup co ((alookup t obj).getD [])).getD []
    · rw [if_pos hdup] at h
      cases h
    · rw [if_neg hdup] at h
      apply ih ?_ h
      constructor
      · exact akeys_aset_nodup _ _ _ hwf.1
      · intro p hp
        rcases mem_aset hp with hp1 | hp1
        · subst hp1
          have hrow := rowWF_of_lookupRev hwf t
          refine ⟨akeys_aset_nodup _ _ _ hrow.1, aset_ne_nil _ _ _, ?_⟩
          intro q hq
          rcases mem_aset hq with hq1 | hq1
          · subst hq1
            have hhs : ((alookup co ((alookup t obj).getD [])).getD []).Nodup := by
              cases hl : alookup co ((alookup t obj).getD []) with
              | none => simp
              | some hs => exact (hrow.2 (co, hs) (alookup_mem hl)).1
            refine ⟨?_, by simp⟩
            simp only [List.nodup_append, List.nodup_cons, List.nodup_nil]
            exact ⟨hhs, by simp, by simpa using hdup⟩
          · exact hrow.2 q hq1
        · exact hwf.2 p hp1

/-- A successful `QueueOutgoingUpdate` implies the queued target set had no
duplicates (a duplicate would have tripped the reverse-index `check`). -/
theorem queueAddReverse_nodup {obj obj' : FOutgoingRepUpdates} {co : ChannelObjectId}
    {handle : Handle} {ts : List TargetId}
    (h : queueAddReverse obj co handle ts = some obj') : ts.Nodup := by
  induction ts generalizing obj with
  | nil => simp
  | cons t rest ih =>
    simp only [queueAddReverse] at h
    by_cases hdup : handle ∈ (alookup co ((alookup t obj).getD [])).getD []
    · rw [if_pos hdup] at h
      cases h
    · rw [if_neg hdup] at h
      have hnotin : t ∉ rest := by
        intro hmem
        have hin : handle ∈ lookupRev
            (aset t (aset co (((alookup co ((alookup t obj).getD [])).getD []) ++ [handle])
              ((alookup t obj).getD [])) obj) t co := by
          rw [lookupRev_update]
          simp
        rw [queueAddReverse_none_of_mem hmem hin] at h
        cases h
      exact List.nodup_cons.mpr ⟨hnotin, ih h⟩

/-- Effect of `USpatialSender::QueueOutgoingUpdate` on both index directions: the
new pending entry appears in the forward index, the handle is appended under every
queued target in the reverse index, and nothing else changes. -/
theorem queueOutgoingUpdate_char {m m' : OutgoingMaps} {co : ChannelObjectId}
    {handle : Handle} {ts : List TargetId}
    (h : queueOutgoingUpdate m co handle ts = some m') :
    (∀ co'' h'', fwdEntry m' co'' h'' =
      if co'' = co ∧ h'' = handle then some ts else fwdEntry m co'' h'') ∧
    (∀ t'' co'', revHandles m' t'' co'' =
      if t'' ∈ ts ∧ co'' = co then revHandles m t'' co'' ++ [handle]
      else revHandles m t'' co'') := by
  unfold queueOutgoingUpdate at h
  by_cases hdup : (alookup handle ((alookup co m.propertyToUnresolved).getD [])).isSome
  · rw [if_pos hdup] at h
    cases h
  · rw [if_neg hdup] at h
    cases hrev : queueAddReverse m.objectToUnresolved co handle ts with
    | none =>
      rw [hrev] at h
      cases h
    | some obj' =>
      rw [hrev] at h
      simp only [Option.some.injEq] at h
      subst h
      constructor
      · intro co'' h''
        exact lookupFwd_update m.propertyToUnresolved co handle ts co'' h''
      · intro t'' co''
        exact queueAddReverse_char hrev t'' co''

/-- A successful `QueueOutgoingUpdate` requires that no pending entry existed for
the handle (the forward-index `check`). -/
theorem queueOutgoingUpdate_fresh {m m' : OutgoingMaps} {co : ChannelObjectId}
    {handle : Handle} {ts : List TargetId}
    (h : queueOutgoingUpdate m co handle ts = some m') :
    fwdEntry m co handle = none := by
  unfold queueOutgoingUpdate at h
  by_cases hdup : (alookup handle ((alookup co m.propertyToUnresolved).getD [])).isSome
  · rw [if_pos hdup] at h
    cases h
  · unfold fwdEntry lookupFwd
    exact Option.not_isSome_iff_eq_none.mp hdup

/-- `QueueOutgoingUpdate` preserves well-formedness and mutual consistency of the
two index directions. -/
theorem queueOutgoingUpdate_invariant {m m' : OutgoingMaps} {co : ChannelObjectId}
    {handle : Handle} {ts : List TargetId} (hwf : MapsWF m) (hcons : Consistent m)
    (h : queueOutgoingUpdate m co handle ts = some m') : MapsWF m' ∧ Consistent m' := by
  have hchar := queueOutgoingUpdate_char h
  have hfresh := queueOutgoingUpdate_fresh h
  have hrev : ∃ obj', queueAddReverse m.objectToUnresolved co handle ts = some obj' ∧
      m'.objectToUnresolved = obj' ∧
      m'.propertyToUnresolved =
        aset co (aset handle ts ((alookup co m.propertyToUnresolved).getD []))
          m.propertyToUnresolved := by
    unfold queueOutgoingUpdate at h
    by_cases hdup : (alookup handle ((alookup co m.propertyToUnresolved).getD [])).isSome
    · rw [if_pos hdup] at h
      cases h
    · rw [if_neg hdup] at h
      cases hq : queueAddReverse m.objectToUnresolved co handle ts with
      | none =>
        rw [hq] at h
        cases h
      | some obj' =>
        rw [hq] at h
        simp only [Option.some.injEq] at h
        exact ⟨obj', rfl, by rw [← h], by rw [← h]⟩
  obtain ⟨obj', hq, hobj, hprop⟩ := hrev
  have hts : ts.Nodup := queueAddReverse_nodup hq
  constructor
  · constructor
    · -- forward well-formedness
      rw [hprop]
      constructor
      · exact akeys_aset_nodup _ _ _ hwf.1.1
      · intro p hp
        rcases mem_aset hp with hp1 | hp1
        · subst hp1
          have hrow := rowWF_of_lookupFwd hwf.1 co
          refine ⟨akeys_aset_nodup _ _ _ hrow.1, ?_⟩
          intro q hq'
          rcases mem_aset hq' with hq1 | hq1
          · subst hq1
            exact hts
          · exact hrow.2 q hq1
        · exact hwf.1.2 p hp1
    · rw [hobj]
      exact queueAddReverse_wf hwf.2 hq
  · -- consistency
    intro t co'' h''
    unfold fwdSet
    rw [hchar.1 co'' h'', hchar.2 t co'']
    by_cases hmain : co'' = co ∧ h'' = handle
    · obtain ⟨hc, hh⟩ := hmain
      subst hc
      subst hh
      simp only [and_true, if_true, eq_self_iff_true, Option.getD_some]
      by_cases htm : t ∈ ts
      · simp [htm]
      · simp only [htm, false_and, if_false, false_iff]
        intro hx
        have h2 := (hcons t co'' h'').mpr hx
        unfold fwdSet at h2
        rw [hfresh] at h2
        simp at h2
    · rw [if_neg hmain]
      have hbase := hcons t co'' h''
      unfold fwdSet at hbase
      by_cases hcond : t ∈ ts ∧ co'' = co
      · rw [if_pos hcond]
        have hne : h'' ≠ handle := by
          intro hx
          exact hmain ⟨hcond.2, hx⟩
        rw [List.mem_append]
        simp only [List.mem_singleton]
        constructor
        · intro hx
          exact Or.inl (hbase.mp hx)
        · intro hx
          rcases hx with hx | hx
          · exact hbase.mpr hx
          · exact absurd hx hne
      · rw [if_neg hcond]
        exact hbase

theorem mem_filter_ne {l : List Nat} {a b : Nat} :
    a ∈ l.filter (· ≠ b) ↔ a ∈ l ∧ a ≠ b := by
  simp

theorem filter_ne_idem (l : List Nat) (b : Nat) :
    (l.filter (· ≠ b)).filter (· ≠ b) = l.filter (· ≠ b) := by
  induction l with
  | nil => rfl
  | cons x rest ih =>
    by_cases hx : x = b <;> simp [hx, ih]

/-- The reverse-index cell replacement of `resetRemoveReverse` preserves
reverse-index well-formedness. -/
theorem lookupRev_replace_wf (obj : FOutgoingRepUpdates) (t : TargetId)
    (co : ChannelObjectId) (hs' : List Handle) (hwf : RevWF obj) (hnd : hs'.Nodup) :
    RevWF
      (if (if hs' = [] then aerase co ((alookup t obj).getD [])
           else aset co hs' ((alookup t obj).getD [])) = []
       then aerase t obj
       else aset t (if hs' = [] then aerase co ((alookup t obj).getD [])
                    else aset co hs' ((alookup t obj).getD [])) obj) := by
  have hrow := rowWF_of_lookupRev hwf t
  set cmap := (alookup t obj).getD [] with hcmap
  set cmap' := if hs' = [] then aerase co cmap else aset co hs' cmap with hcmap'
  have hcmapwf : (akeys cmap').Nodup ∧ ∀ q ∈ cmap', q.2.Nodup ∧ q.2 ≠ [] := by
    rw [hcmap']
    by_cases hsnil : hs' = []
    · rw [if_pos hsnil]
      exact ⟨akeys_aerase_nodup _ _ hrow.1, fun q hq => hrow.2 q (mem_aerase hq)⟩
    · rw [if_neg hsnil]
      refine ⟨akeys_aset_nodup _ _ _ hrow.1, ?_⟩
      intro q hq
      rcases mem_aset hq with hq1 | hq1
      · subst hq1
        exact ⟨hnd, hsnil⟩
      · exact hrow.2 q hq1
  by_cases hnil : cmap' = []
  · rw [if_pos hnil]
    exact ⟨akeys_aerase_nodup _ _ hwf.1, fun p hp => hwf.2 p (mem_aerase hp)⟩
  · rw [if_neg hnil]
    refine ⟨akeys_aset_nodup _ _ _ hwf.1, ?_⟩
    intro p hp
    rcases mem_aset hp with hp1 | hp1
    · subst hp1
      exact ⟨hcmapwf.1, hnil, hcmapwf.2⟩
    · exact hwf.2 p hp1

/-- Effect of the reverse loop of `ResetOutgoingUpdate` on reverse-index lookups:
for every target in the stale entry's set the handle disappears from the target's
reverse cell for this channel/object pair; nothing else changes. -/
theorem resetRemoveReverse_char {obj : FOutgoingRepUpdates} {co : ChannelObjectId}
    {handle : Handle} {ts : List TargetId} (hwf : RevWF obj) :
    RevWF (resetRemoveReverse obj co handle ts) ∧
    ∀ t'' co'', lookupRev (resetRemoveReverse obj co handle ts) t'' co'' =
      if t'' ∈ ts ∧ co'' = co then (lookupRev obj t'' co'').filter (· ≠ handle)
      else lookupRev obj t'' co'' := by
  induction ts generalizing obj with
  | nil =>
    refine ⟨hwf, ?_⟩
    intro t'' co''
    simp [resetRemoveReverse]
  | cons t rest ih =>
    have hrow := rowWF_of_lookupRev hwf t
    have hstep := fun t'' co'' => lookupRev_replace obj t co
      (((alookup co ((alookup t obj).getD [])).getD []).filter (· ≠ handle)) t'' co''
      hwf.1 hrow.1
    have hstepwf := lookupRev_replace_wf obj t co
      (((alookup co ((alookup t obj).getD [])).getD []).filter (· ≠ handle)) hwf
      (by
        have : ((alookup co ((alookup t obj).getD [])).getD []).Nodup := by
          cases hl : alookup co ((alookup t obj).getD []) with
          | none => simp
          | some hs => exact (hrow.2 (co, hs) (alookup_mem hl)).1
        exact this.filter _)
    rw [show resetRemoveReverse obj co handle (t :: rest) =
        resetRemoveReverse
          (if (if ((alookup co ((alookup t obj).getD [])).getD []).filter (· ≠ handle) = []
               then aerase co ((alookup t obj).getD [])
               else aset co (((alookup co ((alookup t obj).getD [])).getD []).filter (· ≠ handle))
                 ((alookup t obj).getD [])) = []
           then aerase t obj
           else aset t
             (if ((alookup co ((alookup t obj).getD [])).getD []).filter (· ≠ handle) = []
              then aerase co ((alookup t obj).getD [])
              else aset co (((alookup co ((alookup t obj).getD [])).getD []).filter (· ≠ handle))
                ((alookup t obj).getD [])) obj) co handle rest from rfl]
    obtain ⟨ihwf, ihchar⟩ := ih hstepwf
    refine ⟨ihwf, ?_⟩
    intro t'' co''
    rw [ihchar t'' co'', hstep t'' co'']
    by_cases hco : co'' = co
    · subst hco
      by_cases ht : t'' = t
      · subst ht
        by_cases hr : t'' ∈ rest
        · rw [if_pos ⟨hr, rfl⟩, if_pos ⟨rfl, rfl⟩, if_pos ⟨List.mem_cons_self _ _, rfl⟩]
          exact filter_ne_idem _ _
        · rw [if_neg (fun hx => hr hx.1), if_pos ⟨rfl, rfl⟩,
            if_pos ⟨List.mem_cons_self _ _, rfl⟩]
          rfl
      · by_cases hr : t'' ∈ rest
        · rw [if_pos ⟨hr, rfl⟩, if_neg (fun hx => ht hx.1),
            if_pos ⟨List.mem_cons_of_mem _ hr, rfl⟩]
        · rw [if_neg (fun hx => hr hx.1), if_neg (fun hx => ht hx.1),
            if_neg (fun hx => (List.mem_cons.mp hx.1).elim (fun hy => ht hy) (fun hy => hr hy))]
    · have hx1 : ¬(t'' ∈ rest ∧ co'' = co) := fun hx => hco hx.2
      have hx2 : ¬(t'' = t ∧ co'' = co) := fun hx => hco hx.2
      have hx3 : ¬(t'' ∈ t :: rest ∧ co'' = co) := fun hx => hco hx.2
      rw [if_neg hx1, if_neg hx2, if_neg hx3]

/-- Effect of `USpatialSender::ResetOutgoingUpdate` on both index directions: the
pending entry for the handle disappears from the forward index, and the handle is
removed from the reverse cell of every target the stale entry referenced. -/
theorem resetOutgoingUpdate_char {m : OutgoingMaps} (hwf : MapsWF m)
    (co : ChannelObjectId) (handle : Handle) :
    (∀ co'' h'', fwdEntry (resetOutgoingUpdate m co handle) co'' h'' =
      if co'' = co ∧ h'' = handle then none else fwdEntry m co'' h'') ∧
    (∀ t'' co'', revHandles (resetOutgoingUpdate m co handle) t'' co'' =
      if t'' ∈ fwdSet m co handle ∧ co'' = co
      then (revHandles m t'' co'').filter (· ≠ handle)
      else revHandles m t'' co'') ∧
    MapsWF (resetOutgoingUpdate m co handle) := by
  cases hl : alookup co m.propertyToUnresolved with
  | none =>
    have hm : resetOutgoingUpdate m co handle = m := by
      unfold resetOutgoingUpdate
      rw [hl]
    have hset : fwdSet m co handle = [] := by
      unfold fwdSet fwdEntry lookupFwd
      rw [hl]
      rfl
    rw [hm]
    refine ⟨?_, ?_, hwf⟩
    · intro co'' h''
      by_cases hc : co'' = co ∧ h'' = handle
      · rw [if_pos hc]
        unfold fwdEntry lookupFwd
        rw [hc.1, hc.2, hl]
        rfl
      · rw [if_neg hc]
    · intro t'' co''
      rw [hset]
      simp
  | some hmap =>
    cases hh : alookup handle hmap with
    | none =>
      have hm : resetOutgoingUpdate m co handle = m := by
        unfold resetOutgoingUpdate
        rw [hl]
        simp only []
        rw [hh]
      have hset : fwdSet m co handle = [] := by
        unfold fwdSet fwdEntry lookupFwd
        rw [hl]
        simp [hh]
      rw [hm]
      refine ⟨?_, ?_, hwf⟩
      · intro co'' h''
        by_cases hc : co'' = co ∧ h'' = handle
        · rw [if_pos hc]
          unfold fwdEntry lookupFwd
          rw [hc.1, hc.2, hl]
          simp [hh]
        · rw [if_neg hc]
      · intro t'' co''
        rw [hset]
        simp
    | some unresolved =>
      have hm : resetOutgoingUpdate m co handle =
          { propertyToUnresolved :=
              if aerase handle hmap = [] then aerase co m.propertyToUnresolved
              else aset co (aerase handle hmap) m.propertyToUnresolved
            objectToUnresolved :=
              resetRemoveReverse m.objectToUnresolved co handle unresolved } := by
        unfold resetOutgoingUpdate
        rw [hl]
        simp only []
        rw [hh]
      have hset : fwdSet m co handle = unresolved := by
        unfold fwdSet fwdEntry lookupFwd
        rw [hl]
        simp [hh]
      have hgetD : (alookup co m.propertyToUnresolved).getD [] = hmap := by
        rw [hl]
        rfl
      have hrr := @resetRemoveReverse_char m.objectToUnresolved co handle unresolved hwf.2
      have hfrow := rowWF_of_lookupFwd hwf.1 co
      rw [hm]
      refine ⟨?_, ?_, ?_, hrr.1⟩
      · intro co'' h''
        have hstep := lookupFwd_eraseHandle m.propertyToUnresolved co handle co'' h''
          hwf.1.1 hfrow.1
        rw [hgetD] at hstep
        exact hstep
      · intro t'' co''
        rw [hset]
        exact hrr.2 t'' co''
      · -- forward well-formedness of the cleaned-up forward index
        by_cases hnil : aerase handle hmap = []
        · simp only [if_pos hnil]
          exact ⟨akeys_aerase_nodup _ _ hwf.1.1, fun p hp => hwf.1.2 p (mem_aerase hp)⟩
        · simp only [if_neg hnil]
          refine ⟨akeys_aset_nodup _ _ _ hwf.1.1, ?_⟩
          intro p hp
          rcases mem_aset hp with hp1 | hp1
          · subst hp1
            have hmwf : (akeys hmap).Nodup ∧ ∀ q ∈ hmap, q.2.Nodup := by
              have := hwf.1.2 (co, hmap) (alookup_mem hl)
              exact this
            exact ⟨akeys_aerase_nodup _ _ hmwf.1, fun q hq => hmwf.2 q (mem_aerase hq)⟩
          · exact hwf.1.2 p hp1

/-- `ResetOutgoingUpdate` preserves mutual consistency of the two index directions. -/
theorem resetOutgoingUpdate_consistent {m : OutgoingMaps} (hwf : MapsWF m)
    (hcons : Consistent m) (co : ChannelObjectId) (handle : Handle) :
    Consistent (resetOutgoingUpdate m co handle) := by
  obtain ⟨hfwd, hrev, _⟩ := resetOutgoingUpdate_char hwf co handle
  intro t co'' h''
  unfold fwdSet
  rw [hfwd co'' h'', hrev t co'']
  by_cases hmain : co'' = co ∧ h'' = handle
  · obtain ⟨hc, hh⟩ := hmain
    subst hc
    subst hh
    simp only [and_true, if_true, eq_self_iff_true, Option.getD_none]
    by_cases htm : t ∈ fwdSet m co'' h''
    · simp only [htm, and_true, if_true, eq_self_iff_true]
      simp [mem_filter_ne]
    · simp only [htm, false_and, if_false]
      constructor
      · intro hx
        simp at hx
      · intro hx
        exact absurd ((hcons t co'' h'').mpr hx) htm
  · rw [if_neg hmain]
    have hbase := hcons t co'' h''
    unfold fwdSet at hbase
    by_cases hcond : t ∈ fwdSet m co handle ∧ co'' = co
    · rw [if_pos hcond]
      have hne : h'' ≠ handle := by
        intro hx
        exact hmain ⟨hcond.2, hx⟩
      rw [mem_filter_ne]
      constructor
      · intro hx
        exact ⟨hbase.mp hx, hne⟩
      · intro hx
        exact hbase.mpr hx.1
    · rw [if_neg hcond]
      exact hbase

/-- The forward-index row update preserves forward well-formedness. -/
theorem lookupFwd_update_wf (fwd : FChannelToHandleToUnresolved) (co : ChannelObjectId)
    (h : Handle) (v : List TargetId) (hwf : FwdWF fwd) (hv : v.Nodup) :
    FwdWF (aset co (aset h v ((alookup co fwd).getD [])) fwd) := by
  have hrow := rowWF_of_lookupFwd hwf co
  refine ⟨akeys_aset_nodup _ _ _ hwf.1, ?_⟩
  intro p hp
  rcases mem_aset hp with hp1 | hp1
  · subst hp1
    refine ⟨akeys_aset_nodup _ _ _ hrow.1, ?_⟩
    intro q hq
    rcases mem_aset hq with hq1 | hq1
    · subst hq1
      exact hv
    · exact hrow.2 q hq1
  · exact hwf.2 p hp1

/-- The forward-index handle removal (with row cleanup) preserves forward
well-formedness. -/
theorem lookupFwd_eraseHandle_wf (fwd : FChannelToHandleToUnresolved)
    (co : ChannelObjectId) (h : Handle) (hwf : FwdWF fwd) :
    FwdWF (if aerase h ((alookup co fwd).getD []) = [] then aerase co fwd
           else aset co (aerase h ((alookup co fwd).getD [])) fwd) := by
  have hrow := rowWF_of_lookupFwd hwf co
  by_cases hnil : aerase h ((alookup co fwd).getD []) = []
  · rw [if_pos hnil]
    exact ⟨akeys_aerase_nodup _ _ hwf.1, fun p hp => hwf.2 p (mem_aerase hp)⟩
  · rw [if_neg hnil]
    refine ⟨akeys_aset_nodup _ _ _ hwf.1, ?_⟩
    intro p hp
    rcases mem_aset hp with hp1 | hp1
    · subst hp1
      exact ⟨akeys_aerase_nodup _ _ hrow.1, fun q hq => hrow.2 q (mem_aerase hq)⟩
    · exact hwf.2 p hp1

/-- `collectSpec` only reads the forward entries of the listed handles. -/
theorem collectSpec_congr {isArr : ChannelObjectId → Handle → Bool} {bIsHandover : Bool}
    {fwdA fwdB : FChannelToHandleToUnresolved} {target : TargetId} {co : ChannelObjectId}
    {handles : List Handle}
    (h : ∀ x ∈ handles, lookupFwd fwdA co x = lookupFwd fwdB co x) :
    collectSpec isArr bIsHandover fwdA target co handles =
      collectSpec isArr bIsHandover fwdB target co handles := by
  induction handles with
  | nil => rfl
  | cons x rest ih =>
    simp only [collectSpec, List.foldr_cons] at *
    rw [h x (List.mem_cons_self _ _), ih (fun y hy => h y (List.mem_cons_of_mem _ hy))]

/-- Full characterisation of the per-channel handle loop of
`ResolveOutgoingOperations`: it removes the resolved target from every listed
handle's pending set (dropping entries that empty), touches nothing else, and
collects exactly the `collectSpec` handle list. -/
theorem resolveHandleLoop_char (isArr : ChannelObjectId → Handle → Bool)
    (bIsHandover : Bool) (target : TargetId) (co : ChannelObjectId) :
    ∀ (handles : List Handle) (fwd : FChannelToHandleToUnresolved),
      FwdWF fwd → handles.Nodup →
      FwdWF (resolveHandleLoop isArr bIsHandover target co handles fwd).1 ∧
      (∀ co'' h'', co'' ≠ co ∨ h'' ∉ handles →
        lookupFwd (resolveHandleLoop isArr bIsHandover target co handles fwd).1 co'' h'' =
          lookupFwd fwd co'' h'') ∧
      (∀ h'' ∈ handles,
        lookupFwd (resolveHandleLoop isArr bIsHandover target co handles fwd).1 co h'' =
          (if ((lookupFwd fwd co h'').getD []).filter (· ≠ target) = [] then none
           else some (((lookupFwd fwd co h'').getD []).filter (· ≠ target)))) ∧
      (resolveHandleLoop isArr bIsHandover target co handles fwd).2 =
        collectSpec isArr bIsHandover fwd target co handles := by
  intro handles
  induction handles with
  | nil =>
    intro fwd hwf _
    refine ⟨hwf, ?_, ?_, rfl⟩
    · intro co'' h'' _
      rfl
    · intro h'' hh''
      cases hh''
  | cons h rest ih =>
    intro fwd hwf hnd
    have hndr : rest.Nodup := (List.nodup_cons.mp hnd).2
    have hhr : h ∉ rest := (List.nodup_cons.mp hnd).1
    have hrow := rowWF_of_lookupFwd hwf co
    by_cases hflush :
        ((alookup h ((alookup co fwd).getD [])).getD []).filter (· ≠ target) = []
    · -- the entry empties: flush the handle and erase the forward entry
      have hstep : resolveHandleLoop isArr bIsHandover target co (h :: rest) fwd =
          ((resolveHandleLoop isArr bIsHandover target co rest
              (if aerase h ((alookup co fwd).getD []) = [] then aerase co fwd
               else aset co (aerase h ((alookup co fwd).getD [])) fwd)).1,
            (h :: (if !bIsHandover && isArr co h then [0, 0] else [])) ++
              (resolveHandleLoop isArr bIsHandover target co rest
                (if aerase h ((alookup co fwd).getD []) = [] then aerase co fwd
                 else aset co (aerase h ((alookup co fwd).getD [])) fwd)).2) := by
        simp only [resolveHandleLoop]
        rw [if_pos hflush]
      have hshape := fun co'' h'' =>
        lookupFwd_eraseHandle fwd co h co'' h'' hwf.1 hrow.1
      have hwf' := lookupFwd_eraseHandle_wf fwd co h hwf
      obtain ⟨ihwf, ihunch, ihmain, ihcoll⟩ := ih _ hwf' hndr
      have hunch' : ∀ x, x ≠ h →
          lookupFwd (if aerase h ((alookup co fwd).getD []) = [] then aerase co fwd
            else aset co (aerase h ((alookup co fwd).getD [])) fwd) co x =
          lookupFwd fwd co x := by
        intro x hx
        rw [hshape co x, if_neg (fun hc => hx hc.2)]
      refine ⟨?_, ?_, ?_, ?_⟩
      · rw [hstep]
        exact ihwf
      · intro co'' h'' hcond
        rw [hstep]
        have h1 : lookupFwd (resolveHandleLoop isArr bIsHandover target co rest
            (if aerase h ((alookup co fwd).getD []) = [] then aerase co fwd
             else aset co (aerase h ((alookup co fwd).getD [])) fwd)).1 co'' h'' =
            lookupFwd (if aerase h ((alookup co fwd).getD []) = [] then aerase co fwd
              else aset co (aerase h ((alookup co fwd).getD [])) fwd) co'' h'' := by
          apply ihunch
          rcases hcond with hc | hc
          · exact Or.inl hc
          · exact Or.inr (fun hm => hc (List.mem_cons_of_mem _ hm))
        rw [h1, hshape co'' h'']
        rw [if_neg ?_]
        rcases hcond with hc | hc
        · exact fun hc2 => hc hc2.1
        · exact fun hc2 => hc (hc2.2 ▸ List.mem_cons_self _ _)
      · intro h'' hh''
        rw [hstep]
        rcases List.mem_cons.mp hh'' with hh1 | hh1
        · subst hh1
          have h1 : lookupFwd (resolveHandleLoop isArr bIsHandover target co rest
              (if aerase h'' ((alookup co fwd).getD []) = [] then aerase co fwd
               else aset co (aerase h'' ((alookup co fwd).getD [])) fwd)).1 co h'' =
              lookupFwd (if aerase h'' ((alookup co fwd).getD []) = [] then aerase co fwd
                else aset co (aerase h'' ((alookup co fwd).getD [])) fwd) co h'' := by
            apply ihunch
            exact Or.inr hhr
          rw [h1, hshape co h'', if_pos ⟨rfl, rfl⟩]
          unfold lookupFwd
          rw [if_pos hflush]
        · have h1 := ihmain h'' hh1
          rw [h1, hunch' h'' (fun hx => hhr (hx ▸ hh1))]
      · rw [hstep]
        simp only
        rw [ihcoll, collectSpec_congr (fun y hy => hunch' y (fun hx => hhr (hx ▸ hy)))]
        simp only [collectSpec, List.foldr_cons]
        unfold lookupFwd
        rw [if_pos hflush]
    · -- the entry still has other targets: write back the shrunk set
      have hstep : resolveHandleLoop isArr bIsHandover target co (h :: rest) fwd =
          resolveHandleLoop isArr bIsHandover target co rest
            (aset co (aset h
              (((alookup h ((alookup co fwd).getD [])).getD []).filter (· ≠ target))
              ((alookup co fwd).getD [])) fwd) := by
        simp only [resolveHandleLoop]
        rw [if_neg hflush]
      have hshape := fun co'' h'' => lookupFwd_update fwd co h
        (((alookup h ((alookup co fwd).getD [])).getD []).filter (· ≠ target)) co'' h''
      have hsnd : (((alookup h ((alookup co fwd).getD [])).getD []).filter (· ≠ target)).Nodup := by
        have : ((alookup h ((alookup co fwd).getD [])).getD []).Nodup := by
          cases hl : alookup h ((alookup co fwd).getD []) with
          | none => simp
          | some s => exact hrow.2 (h, s) (alookup_mem hl)
        exact this.filter _
      have hwf' := lookupFwd_update_wf fwd co h
        (((alookup h ((alookup co fwd).getD [])).getD []).filter (· ≠ target)) hwf hsnd
      obtain ⟨ihwf, ihunch, ihmain, ihcoll⟩ := ih _ hwf' hndr
      have hunch' : ∀ x, x ≠ h →
          lookupFwd (aset co (aset h
            (((alookup h ((alookup co fwd).getD [])).getD []).filter (· ≠ target))
            ((alookup co fwd).getD [])) fwd) co x = lookupFwd fwd co x := by
        intro x hx
        rw [hshape co x, if_neg (fun hc => hx hc.2)]
      refine ⟨?_, ?_, ?_, ?_⟩
      · rw [hstep]
        exact ihwf
      · intro co'' h'' hcond
        rw [hstep]
        have h1 : lookupFwd (resolveHandleLoop isArr bIsHandover target co rest
            (aset co (aset h
              (((alookup h ((alookup co fwd).getD [])).getD []).filter (· ≠ target))
              ((alookup co fwd).getD [])) fwd)).1 co'' h'' =
            lookupFwd (aset co (aset h
              (((alookup h ((alookup co fwd).getD [])).getD []).filter (· ≠ target))
              ((alookup co fwd).getD [])) fwd) co'' h'' := by
          apply ihunch
          rcases hcond with hc | hc
          · exact Or.inl hc
          · exact Or.inr (fun hm => hc (List.mem_cons_of_mem _ hm))
        rw [h1, hshape co'' h'']
        rw [if_neg ?_]
        rcases hcond with hc | hc
        · exact fun hc2 => hc hc2.1
        · exact fun hc2 => hc (hc2.2 ▸ List.mem_cons_self _ _)
      · intro h'' hh''
        rw [hstep]
        rcases List.mem_cons.mp hh'' with hh1 | hh1
        · subst hh1
          have h1 : lookupFwd (resolveHandleLoop isArr bIsHandover target co rest
              (aset co (aset h''
                (((alookup h'' ((alookup co fwd).getD [])).getD []).filter (· ≠ target))
                ((alookup co fwd).getD [])) fwd)).1 co h'' =
              lookupFwd (aset co (aset h''
                (((alookup h'' ((alookup co fwd).getD [])).getD []).filter (· ≠ target))
                ((alookup co fwd).getD [])) fwd) co h'' := by
            apply ihunch
            exact Or.inr hhr
          rw [h1, hshape co h'', if_pos ⟨rfl, rfl⟩]
          unfold lookupFwd
          rw [if_neg hflush]
        · have h1 := ihmain h'' hh1
          rw [h1, hunch' h'' (fun hx => hhr (hx ▸ hh1))]
      · rw [hstep]
        rw [ihcoll, collectSpec_congr (fun y hy => hunch' y (fun hx => hhr (hx ▸ hy)))]
        simp only [collectSpec, List.foldr_cons]
        unfold lookupFwd
        rw [if_neg hflush]

/-- `sendsSpec` only reads the forward entries of the listed channel/object pairs. -/
theorem sendsSpec_congr {isArr : ChannelObjectId → Handle → Bool} {bIsHandover : Bool}
    {fwdA fwdB : FChannelToHandleToUnresolved} {target : TargetId}
    {rows : List (ChannelObjectId × List Handle)}
    (h : ∀ row ∈ rows, ∀ x, lookupFwd fwdA row.1 x = lookupFwd fwdB row.1 x) :
    sendsSpec isArr bIsHandover fwdA target rows =
      sendsSpec isArr bIsHandover fwdB target rows := by
  induction rows with
  | nil => rfl
  | cons row rest ih =>
    simp only [sendsSpec, List.foldr_cons] at *
    rw [collectSpec_congr (fun x _ => h row (List.mem_cons_self _ _) x),
      ih (fun r hr x => h r (List.mem_cons_of_mem _ hr) x)]

/-- Full characterisation of the channel loop of `ResolveOutgoingOperations`. -/
theorem resolveChannelLoop_char (isArr : ChannelObjectId → Handle → Bool)
    (bIsHandover : Bool) (target : TargetId) :
    ∀ (rows : List (ChannelObjectId × List Handle)) (fwd : FChannelToHandleToUnresolved),
      FwdWF fwd → (akeys rows).Nodup → (∀ row ∈ rows, row.2.Nodup) →
      FwdWF (resolveChannelLoop isArr bIsHandover target rows fwd).1 ∧
      (∀ co h, co ∉ akeys rows →
        lookupFwd (resolveChannelLoop isArr bIsHandover target rows fwd).1 co h =
          lookupFwd fwd co h) ∧
      (∀ row ∈ rows, ∀ h,
        lookupFwd (resolveChannelLoop isArr bIsHandover target rows fwd).1 row.1 h =
          (if h ∈ row.2 then
            (if ((lookupFwd fwd row.1 h).getD []).filter (· ≠ target) = [] then none
             else some (((lookupFwd fwd row.1 h).getD []).filter (· ≠ target)))
           else lookupFwd fwd row.1 h)) ∧
      (resolveChannelLoop isArr bIsHandover target rows fwd).2 =
        sendsSpec isArr bIsHandover fwd target rows := by
  intro rows
  induction rows with
  | nil =>
    intro fwd hwf _ _
    exact ⟨hwf, fun co h _ => rfl, fun row hrow => (by cases hrow), rfl⟩
  | cons row rest ih =>
    intro fwd hwf hknd hrnd
    obtain ⟨co, hs⟩ := row
    have hknd' : (co :: akeys rest).Nodup := hknd
    have hcorest : co ∉ akeys rest := (List.nodup_cons.mp hknd').1
    have hkndr : (akeys rest).Nodup := (List.nodup_cons.mp hknd').2
    have hhsnd : hs.Nodup := hrnd (co, hs) (List.mem_cons_self _ _)
    obtain ⟨hwf1, hunch1, hmain1, hcoll1⟩ :=
      resolveHandleLoop_char isArr bIsHandover target co hs fwd hwf hhsnd
    obtain ⟨ihwf, ihunch, ihmain, ihsends⟩ :=
      ih (resolveHandleLoop isArr bIsHandover target co hs fwd).1 hwf1 hkndr
        (fun r hr => hrnd r (List.mem_cons_of_mem _ hr))
    have hstep : resolveChannelLoop isArr bIsHandover target ((co, hs) :: rest) fwd =
        ((resolveChannelLoop isArr bIsHandover target rest
            (resolveHandleLoop isArr bIsHandover target co hs fwd).1).1,
          (if (resolveHandleLoop isArr bIsHandover target co hs fwd).2 = [] then []
           else if bIsHandover then
             [ComponentUpdateSend.mk co none
               (some (resolveHandleLoop isArr bIsHandover target co hs fwd).2)]
           else
             [ComponentUpdateSend.mk co
               (some ((resolveHandleLoop isArr bIsHandover target co hs fwd).2 ++ [0]))
               none]) ++
          (resolveChannelLoop isArr bIsHandover target rest
            (resolveHandleLoop isArr bIsHandover target co hs fwd).1).2) := by
      simp only [resolveChannelLoop]
    have hrestcells : ∀ r ∈ rest, ∀ x,
        lookupFwd (resolveHandleLoop isArr bIsHandover target co hs fwd).1 r.1 x =
          lookupFwd fwd r.1 x := by
      intro r hr x
      apply hunch1
      exact Or.inl (fun hx => hcorest (hx ▸ (List.mem_map.mpr ⟨r, hr, rfl⟩)))
    refine ⟨?_, ?_, ?_, ?_⟩
    · rw [hstep]
      exact ihwf
    · intro co' h hco'
      have hco1 : co' ≠ co := by
        intro hx
        exact hco' (by simp [akeys, hx])
      have hco2 : co' ∉ akeys rest := by
        intro hx
        exact hco' (by simp [akeys] at hx ⊢; exact Or.inr hx)
      rw [hstep]
      simp only
      rw [ihunch co' h hco2]
      apply hunch1
      exact Or.inl hco1
    · intro r hr h
      rcases List.mem_cons.mp hr with hr1 | hr1
      · subst hr1
        rw [hstep]
        simp only
        rw [ihunch co h hcorest]
        by_cases hmem : h ∈ hs
        · rw [if_pos hmem]
          exact hmain1 h hmem
        · rw [if_neg hmem]
          apply hunch1
          exact Or.inr hmem
      · rw [hstep]
        simp only
        have := ihmain r hr1 h
        rw [this]
        by_cases hmem : h ∈ r.2
        · rw [if_pos hmem, if_pos hmem, hrestcells r hr1 h]
        · rw [if_neg hmem, if_neg hmem, hrestcells r hr1 h]
    · rw [hstep]
      simp only
      rw [ihsends, sendsSpec_congr hrestcells, hcoll1]
      simp only [sendsSpec, List.foldr_cons]

/-- Full characterisation of `USpatialSender::ResolveOutgoingOperations` on a
well-formed, consistent container pair: the resolved target is removed from every
pending set that contained it (entries that empty disappear from the forward
index), the target's reverse entry is dropped wholesale, the invariants are
preserved, and the emitted update sends are exactly `sendsSpec` over the
target's reverse rows. -/
theorem resolveOutgoingOperations_char (isArr : ChannelObjectId → Handle → Bool)
    (m : OutgoingMaps) (target : TargetId) (bIsHandover : Bool)
    (hwf : MapsWF m) (hcons : Consistent m) :
    MapsWF (resolveOutgoingOperations isArr m target bIsHandover).1 ∧
    Consistent (resolveOutgoingOperations isArr m target bIsHandover).1 ∧
    (∀ co h, fwdEntry (resolveOutgoingOperations isArr m target bIsHandover).1 co h =
      (if target ∈ fwdSet m co h then
        (if (fwdSet m co h).filter (· ≠ target) = [] then none
         else some ((fwdSet m co h).filter (· ≠ target)))
       else fwdEntry m co h)) ∧
    (∀ t co, revHandles (resolveOutgoingOperations isArr m target bIsHandover).1 t co =
      (if t = target then [] else revHandles m t co)) ∧
    (resolveOutgoingOperations isArr m target bIsHandover).2 =
      sendsSpec isArr bIsHandover m.propertyToUnresolved target
        ((alookup target m.objectToUnresolved).getD []) := by
  cases hl : alookup target m.objectToUnresolved with
  | none =>
    have hres : resolveOutgoingOperations isArr m target bIsHandover = (m, []) := by
      unfold resolveOutgoingOperations
      rw [hl]
    have hnorev : ∀ co, revHandles m target co = [] := by
      intro co
      unfold revHandles lookupRev
      rw [hl]
      rfl
    rw [hres]
    refine ⟨hwf, hcons, ?_, ?_, ?_⟩
    · intro co h
      by_cases hmem : target ∈ fwdSet m co h
      · exfalso
        have := (hcons target co h).mp hmem
        rw [hnorev co] at this
        cases this
      · rw [if_neg hmem]
    · intro t co
      by_cases ht : t = target
      · subst ht
        rw [if_pos rfl]
        exact hnorev co
      · rw [if_neg ht]
    · rfl
  | some channelToUnresolved =>
    have hgetD : (alookup target m.objectToUnresolved).getD [] = channelToUnresolved := by
      rw [hl]
      rfl
    have hrowwf := hwf.2.2 (target, channelToUnresolved) (alookup_mem hl)
    obtain ⟨lwf, lunch, lmain, lsends⟩ :=
      resolveChannelLoop_char isArr bIsHandover target channelToUnresolved
        m.propertyToUnresolved hwf.1 hrowwf.1 (fun r hr => (hrowwf.2.2 r hr).1)
    have hres : resolveOutgoingOperations isArr m target bIsHandover =
        ({ propertyToUnresolved :=
             (resolveChannelLoop isArr bIsHandover target channelToUnresolved
               m.propertyToUnresolved).1
           objectToUnresolved := aerase target m.objectToUnresolved },
         (resolveChannelLoop isArr bIsHandover target channelToUnresolved
           m.propertyToUnresolved).2) := by
      unfold resolveOutgoingOperations
      rw [hl]
    -- the handles listed under the target's reverse rows are exactly the pending
    -- sets containing the target
    have hrowfind : ∀ co, alookup co channelToUnresolved = some (revHandles m target co) ∨
        (alookup co channelToUnresolved = none ∧ revHandles m target co = []) := by
      intro co
      have hrv : revHandles m target co = (alookup co channelToUnresolved).getD [] := by
        unfold revHandles lookupRev
        rw [hl]
        rfl
      cases hlc : alookup co channelToUnresolved with
      | none =>
        refine Or.inr ⟨rfl, ?_⟩
        rw [hrv, hlc]
        rfl
      | some hs =>
        refine Or.inl ?_
        rw [hrv, hlc]
        rfl
    have hfwdchar : ∀ co h,
        lookupFwd (resolveChannelLoop isArr bIsHandover target channelToUnresolved
          m.propertyToUnresolved).1 co h =
        (if target ∈ fwdSet m co h then
          (if (fwdSet m co h).filter (· ≠ target) = [] then none
           else some ((fwdSet m co h).filter (· ≠ target)))
         else fwdEntry m co h) := by
      intro co h
      have hrevmem : target ∈ fwdSet m co h ↔ h ∈ revHandles m target co := hcons target co h
      rcases hrowfind co with hx | hx
      · have hmemrow : (co, revHandles m target co) ∈ channelToUnresolved := alookup_mem hx
        have hm1 := lmain (co, revHandles m target co) hmemrow h
        rw [hm1]
        by_cases hmem : h ∈ revHandles m target co
        · rw [if_pos hmem, if_pos (hrevmem.mpr hmem)]
          rfl
        · rw [if_neg hmem, if_neg (fun hc => hmem (hrevmem.mp hc))]
          rfl
      · rw [lunch co h ?_]
        · have hnomem : ¬ target ∈ fwdSet m co h := by
            intro hc
            have h2 := hrevmem.mp hc
            rw [hx.2] at h2
            cases h2
          rw [if_neg hnomem]
          rfl
        · intro hm
          obtain ⟨v, hv⟩ := alookup_mem_akeys hm
          rw [hx.1] at hv
          cases hv
    have hrevchar : ∀ t co,
        revHandles
          (OutgoingMaps.mk
            (resolveChannelLoop isArr bIsHandover target channelToUnresolved
              m.propertyToUnresolved).1
            (aerase target m.objectToUnresolved)) t co =
          (if t = target then [] else revHandles m t co) := by
      intro t co
      unfold revHandles lookupRev
      by_cases ht : t = target
      · subst ht
        rw [if_pos rfl]
        simp only
        rw [alookup_aerase_self t m.objectToUnresolved hwf.2.1]
        rfl
      · rw [if_neg ht]
        simp only
        rw [alookup_aerase_ne ht]
    rw [hres]
    refine ⟨?_, ?_, ?_, ?_, ?_⟩
    · refine ⟨lwf, ?_, ?_⟩
      · exact akeys_aerase_nodup _ _ hwf.2.1
      · intro p hp
        exact hwf.2.2 p (mem_aerase hp)
    · -- consistency of the post-resolve state
      intro t co h
      have hfnew : t ∈ fwdSet
          (OutgoingMaps.mk
            (resolveChannelLoop isArr bIsHandover target channelToUnresolved
              m.propertyToUnresolved).1
            (aerase target m.objectToUnresolved)) co h ↔
          t ∈ fwdSet m co h ∧ t ≠ target := by
        unfold fwdSet fwdEntry
        simp only
        rw [hfwdchar co h]
        by_cases hint : target ∈ fwdSet m co h
        · rw [if_pos hint]
          by_cases hfil : (fwdSet m co h).filter (· ≠ target) = []
          · rw [if_pos hfil]
            simp only [Option.getD_none, List.not_mem_nil, false_iff]
            intro hc
            have : t ∈ (fwdSet m co h).filter (· ≠ target) := mem_filter_ne.mpr hc
            rw [hfil] at this
            cases this
          · rw [if_neg hfil]
            simp only [Option.getD_some]
            exact mem_filter_ne
        · rw [if_neg hint]
          constructor
          · intro hc
            refine ⟨hc, ?_⟩
            intro hx
            exact hint (hx ▸ hc)
          · intro hc
            exact hc.1
      rw [hfnew, hrevchar t co]
      by_cases ht : t = target
      · subst ht
        simp
      · rw [if_neg ht]
        constructor
        · intro hc
          exact (hcons t co h).mp hc.1
        · intro hc
          exact ⟨(hcons t co h).mpr hc, ht⟩
    · intro co h
      exact hfwdchar co h
    · intro t co
      exact hrevchar t co
    · exact lsends

theorem alookup_of_mem_nodup {α : Type} {k : Nat} {v : α} {l : List (Nat × α)}
    (hnd : (akeys l).Nodup) (hm : (k, v) ∈ l) : alookup k l = some v := by
  induction l with
  | nil => cases hm
  | cons p rest ih =>
    obtain ⟨k', v'⟩ := p
    have hnd' : k' ∉ akeys rest ∧ (akeys rest).Nodup := List.nodup_cons.mp hnd
    rcases List.mem_cons.mp hm with h1 | h1
    · cases h1
      simp [alookup]
    · have hk : k' ≠ k := by
        intro hx
        subst hx
        exact hnd'.1 (List.mem_map.mpr ⟨(k', v), h1, rfl⟩)
      simp only [alookup, if_neg hk]
      exact ih hnd'.2 h1

/-- Membership of a non-zero handle in the collected flush list. -/
theorem mem_collectSpec {isArr : ChannelObjectId → Handle → Bool} {bIsHandover : Bool}
    {fwd : FChannelToHandleToUnresolved} {target : TargetId} {co : ChannelObjectId}
    {handles : List Handle} {h : Handle} (h0 : h ≠ 0) :
    h ∈ collectSpec isArr bIsHandover fwd target co handles ↔
      (h ∈ handles ∧ ((lookupFwd fwd co h).getD []).filter (· ≠ target) = []) := by
  induction handles with
  | nil => simp [collectSpec]
  | cons x rest ih =>
    simp only [collectSpec, List.foldr_cons] at *
    by_cases hcond : ((lookupFwd fwd co x).getD []).filter (· ≠ target) = []
    · rw [if_pos hcond]
      simp only [List.mem_append, List.mem_cons]
      constructor
      · intro hx
        rcases hx with hx | hx
        · rcases hx with hx | hx
          · subst hx
            exact ⟨Or.inl rfl, hcond⟩
          · exfalso
            by_cases hmk : !bIsHandover && isArr co x
            · rw [if_pos hmk] at hx
              rcases (by simpa using hx : h = 0 ∨ h = 0) with hz | hz <;> exact h0 hz
            · rw [if_neg hmk] at hx
              cases hx
        · have := ih.mp hx
          exact ⟨Or.inr this.1, this.2⟩
      · intro hx
        rcases hx.1 with hy | hy
        · subst hy
          exact Or.inl (Or.inl rfl)
        · exact Or.inr (ih.mpr ⟨hy, hx.2⟩)
    · rw [if_neg hcond]
      rw [ih]
      constructor
      · intro hx
        exact ⟨List.mem_cons_of_mem _ hx.1, hx.2⟩
      · intro hx
        rcases List.mem_cons.mp hx.1 with hy | hy
        · subst hy
          exact absurd hx.2 hcond
        · exact ⟨hy, hx.2⟩

/-- A non-zero handle is mentioned by the sends of one resolve pass exactly once
when it is in the flush list for its channel/object pair, and never otherwise. -/
theorem flushCount_sendsSpec (isArr : ChannelObjectId → Handle → Bool) (bIsHandover : Bool)
    (fwd : FChannelToHandleToUnresolved) (target : TargetId)
    (rows : List (ChannelObjectId × List Handle)) (co : ChannelObjectId) (h : Handle)
    (hknd : (akeys rows).Nodup) (h0 : h ≠ 0) :
    flushCount (sendsSpec isArr bIsHandover fwd target rows) co h =
      (if h ∈ collectSpec isArr bIsHandover fwd target co ((alookup co rows).getD [])
       then 1 else 0) := by
  induction rows with
  | nil =>
    simp [flushCount, sendsSpec, collectSpec]
  | cons row rest ih =>
    obtain ⟨co', hs'⟩ := row
    have hknd' : (co' :: akeys rest).Nodup := hknd
    have hkndr : (akeys rest).Nodup := (List.nodup_cons.mp hknd').2
    have hstep : sendsSpec isArr bIsHandover fwd target ((co', hs') :: rest) =
        (if collectSpec isArr bIsHandover fwd target co' hs' = [] then []
         else if bIsHandover then
           [ComponentUpdateSend.mk co' none
             (some (collectSpec isArr bIsHandover fwd target co' hs'))]
         else
           [ComponentUpdateSend.mk co'
             (some (collectSpec isArr bIsHandover fwd target co' hs' ++ [0])) none]) ++
        sendsSpec isArr bIsHandover fwd target rest := by
      simp only [sendsSpec, List.foldr_cons]
    rw [hstep]
    unfold flushCount
    rw [List.countP_append]
    by_cases hco : co' = co
    · subst hco
      have hlook : alookup co' ((co', hs') :: rest) = some hs' := by
        simp [alookup]
      rw [hlook]
      simp only [Option.getD_some]
      have hrest0 : (sendsSpec isArr bIsHandover fwd target rest).countP
          (fun s => decide (s.co = co') && decide (h ∈ sendHandles s)) = 0 := by
        have := ih hkndr
        unfold flushCount at this
        rw [this]
        have hnone : alookup co' rest = none :=
          alookup_eq_none (List.nodup_cons.mp hknd').1
        rw [hnone]
        simp [collectSpec]
      rw [hrest0]
      by_cases hnil : collectSpec isArr bIsHandover fwd target co' hs' = []
      · rw [if_pos hnil]
        rw [if_neg (fun hc => by rw [hnil] at hc; cases hc)]
        rfl
      · rw [if_neg hnil]
        by_cases hhov : bIsHandover
        · subst hhov
          simp only [if_true]
          by_cases hmem : h ∈ collectSpec isArr true fwd target co' hs'
          · rw [if_pos hmem]
            simp [List.countP_cons, sendHandles, hmem]
          · rw [if_neg hmem]
            simp [List.countP_cons, sendHandles, hmem]
        · simp only [hhov, if_false]
          by_cases hmem : h ∈ collectSpec isArr false fwd target co' hs'
          · rw [if_pos hmem]
            simp [List.countP_cons, sendHandles, hmem]
          · rw [if_neg hmem]
            have hnot : ¬ h ∈ collectSpec isArr false fwd target co' hs' ++ [0] := by
              intro hc
              rcases List.mem_append.mp hc with hc | hc
              · exact hmem hc
              · exact h0 (by simpa using hc)
            simp [List.countP_cons, sendHandles, hnot]
    · have hlook : alookup co ((co', hs') :: rest) = alookup co rest := by
        simp [alookup, hco]
      rw [hlook]
      have hblock : (if collectSpec isArr bIsHandover fwd target co' hs' = [] then []
          else if bIsHandover then
            [ComponentUpdateSend.mk co' none
              (some (collectSpec isArr bIsHandover fwd target co' hs'))]
          else
            [ComponentUpdateSend.mk co'
              (some (collectSpec isArr bIsHandover fwd target co' hs' ++ [0])) none]).countP
          (fun s => decide (s.co = co) && decide (h ∈ sendHandles s)) = 0 := by
        by_cases hnil : collectSpec isArr bIsHandover fwd target co' hs' = []
        · rw [if_pos hnil]
          rfl
        · rw [if_neg hnil]
          by_cases hhov : bIsHandover <;> simp [hhov, List.countP_cons, hco]
      rw [hblock]
      have := ih hkndr
      unfold flushCount at this
      rw [this]
      simp

/-- Resolving a target that no pending entry references is a no-op producing no
sends. -/
theorem resolveOutgoingOperations_noop (isArr : ChannelObjectId → Handle → Bool)
    (m : OutgoingMaps) (target : TargetId) (bIsHandover : Bool)
    (hwf : MapsWF m) (hcons : Consistent m)
    (hnone : ∀ co h, target ∉ fwdSet m co h) :
    resolveOutgoingOperations isArr m target bIsHandover = (m, []) := by
  cases hl : alookup target m.objectToUnresolved with
  | none =>
    unfold resolveOutgoingOperations
    rw [hl]
  | some rows =>
    exfalso
    have hrowwf := hwf.2.2 (target, rows) (alookup_mem hl)
    obtain ⟨p, hp⟩ : ∃ p, p ∈ rows := by
      cases hr : rows with
      | nil => exact absurd hr hrowwf.2.1
      | cons q qs => exact ⟨q, List.mem_cons_self _ _⟩
    obtain ⟨co, hs⟩ := p
    obtain ⟨h, hh⟩ : ∃ h, h ∈ hs := by
      cases hhs : hs with
      | nil => exact absurd hhs (hrowwf.2.2 (co, hs) hp).2
      | cons q qs => exact ⟨q, List.mem_cons_self _ _⟩
    have hlook : alookup co rows = some hs := alookup_of_mem_nodup hrowwf.1 hp
    have hrev : h ∈ revHandles m target co := by
      unfold revHandles lookupRev
      rw [hl]
      simp only [Option.getD_some]
      rw [hlook]
      exact hh
    exact hnone co h ((hcons target co h).mpr hrev)

/-- Every resolver call preserves the sender invariant. -/
theorem applySenderOp_invariant (isArr : ChannelObjectId → Handle → Bool)
    {st st' : USpatialSenderState} {op : SenderOp} (hinv : SenderInvariant st)
    (h : applySenderOp isArr st op = some st') : SenderInvariant st' := by
  obtain ⟨hrwf, hrcons, hhwf, hhcons⟩ := hinv
  cases op with
  | queue co handle ts bIsHandover =>
    cases bIsHandover with
    | true =>
      simp only [applySenderOp, if_true, eq_self_iff_true] at h
      cases hq : queueOutgoingUpdate (handoverMaps st) co handle ts with
      | none =>
        rw [hq] at h
        cases h
      | some mq =>
        rw [hq] at h
        simp only [Option.some.injEq] at h
        subst h
        have := queueOutgoingUpdate_invariant hhwf hhcons hq
        exact ⟨hrwf, hrcons, this.1, this.2⟩
    | false =>
      simp only [applySenderOp, Bool.false_eq_true, if_false] at h
      cases hq : queueOutgoingUpdate (repMaps st) co handle ts with
      | none =>
        rw [hq] at h
        cases h
      | some mq =>
        rw [hq] at h
        simp only [Option.some.injEq] at h
        subst h
        have := queueOutgoingUpdate_invariant hrwf hrcons hq
        exact ⟨this.1, this.2, hhwf, hhcons⟩
  | reset co handle bIsHandover =>
    cases bIsHandover with
    | true =>
      simp only [applySenderOp, if_true, eq_self_iff_true, Option.some.injEq] at h
      subst h
      exact ⟨hrwf, hrcons, (resetOutgoingUpdate_char hhwf co handle).2.2,
        resetOutgoingUpdate_consistent hhwf hhcons co handle⟩
    | false =>
      simp only [applySenderOp, Bool.false_eq_true, if_false, Option.some.injEq] at h
      subst h
      exact ⟨(resetOutgoingUpdate_char hrwf co handle).2.2,
        resetOutgoingUpdate_consistent hrwf hrcons co handle, hhwf, hhcons⟩
  | resolve target bIsHandover =>
    cases bIsHandover with
    | true =>
      simp only [applySenderOp, if_true, eq_self_iff_true, Option.some.injEq] at h
      subst h
      have := resolveOutgoingOperations_char isArr (handoverMaps st) target true hhwf hhcons
      exact ⟨hrwf, hrcons, this.1, this.2.1⟩
    | false =>
      simp only [applySenderOp, Bool.false_eq_true, if_false, Option.some.injEq] at h
      subst h
      have := resolveOutgoingOperations_char isArr (repMaps st) target false hrwf hrcons
      exact ⟨this.1, this.2.1, hhwf, hhcons⟩

/-- Invariant preservation along any successful operation sequence. -/
theorem runSenderOps_invariant (isArr : ChannelObjectId → Handle → Bool)
    {st st' : USpatialSenderState} {ops : List SenderOp} (hinv : SenderInvariant st)
    (h : runSenderOps isArr st ops = some st') : SenderInvariant st' := by
  induction ops generalizing st with
  | nil =>
    simp only [runSenderOps, Option.some.injEq] at h
    subst h
    exact hinv
  | cons op rest ih =>
    unfold runSenderOps at h
    cases ha : applySenderOp isArr st op with
    | none =>
      rw [ha] at h
      cases h
    | some st1 =>
      rw [ha] at h
      exact ih (applySenderOp_invariant isArr hinv ha) h

theorem initialSenderState_invariant : SenderInvariant initialSenderState := by
  have hwf : MapsWF (OutgoingMaps.mk [] []) := by
    refine ⟨⟨List.nodup_nil, ?_⟩, List.nodup_nil, ?_⟩ <;> (intro p hp; cases hp)
  have hcons : Consistent (OutgoingMaps.mk [] []) := by
    intro t co h
    simp [fwdSet, fwdEntry, lookupFwd, revHandles, lookupRev]
  exact ⟨hwf, hcons, hwf, hcons⟩


theorem filter_ne_eq_nil {l : List Nat} {b : Nat} (h : ∀ x ∈ l, x = b) :
    l.filter (· ≠ b) = [] := by
  induction l with
  | nil => rfl
  | cons x rest ih =>
    have hx : x = b := h x (List.mem_cons_self _ _)
    subst hx
    have hr := ih (fun y hy => h y (List.mem_cons_of_mem _ hy))
    simp [List.filter_cons, hr]
    intro a ha
    exact h a (List.mem_cons_of_mem _ ha)

/-- Shape of every update send emitted by a resolve pass: it belongs to one
reverse-index row, batches that row's whole collected handle list, and uses the
replicated-property framing (trailing sentinel `0`) or the bare handover framing
according to the container kind. -/
theorem sendsSpec_shape {isArr : ChannelObjectId → Handle → Bool} {bIsHandover : Bool}
    {fwd : FChannelToHandleToUnresolved} {target : TargetId}
    {rows : List (ChannelObjectId × List Handle)} :
    ∀ s ∈ sendsSpec isArr bIsHandover fwd target rows,
      ∃ co handles, (co, handles) ∈ rows ∧
        collectSpec isArr bIsHandover fwd target co handles ≠ [] ∧ s.co = co ∧
        (if bIsHandover then
          s.repChanged = none ∧
            s.handoverChanged = some (collectSpec isArr bIsHandover fwd target co handles)
         else
          s.handoverChanged = none ∧
            s.repChanged = some (collectSpec isArr bIsHandover fwd target co handles ++ [0])) := by
  induction rows with
  | nil =>
    intro s hs
    cases hs
  | cons row rest ih =>
    intro s hs
    obtain ⟨co', hs'⟩ := row
    have hstep : sendsSpec isArr bIsHandover fwd target ((co', hs') :: rest) =
        (if collectSpec isArr bIsHandover fwd target co' hs' = [] then []
         else if bIsHandover then
           [ComponentUpdateSend.mk co' none
             (some (collectSpec isArr bIsHandover fwd target co' hs'))]
         else
           [ComponentUpdateSend.mk co'
             (some (collectSpec isArr bIsHandover fwd target co' hs' ++ [0])) none]) ++
        sendsSpec isArr bIsHandover fwd target rest := by
      simp only [sendsSpec, List.foldr_cons]
    rw [hstep] at hs
    rcases List.mem_append.mp hs with hmem | hmem
    · by_cases hnil : collectSpec isArr bIsHandover fwd target co' hs' = []
      · rw [if_pos hnil] at hmem
        cases hmem
      · rw [if_neg hnil] at hmem
        cases bIsHandover with
        | true =>
          simp only [if_true] at hmem
          rcases List.mem_cons.mp hmem with h1 | h1
          · subst h1
            exact ⟨co', hs', List.mem_cons_self _ _, hnil, rfl, by simp⟩
          · cases h1
        | false =>
          simp only [Bool.false_eq_true, if_false] at hmem
          rcases List.mem_cons.mp hmem with h1 | h1
          · subst h1
            exact ⟨co', hs', List.mem_cons_self _ _, hnil, rfl, by simp⟩
          · cases h1
    · obtain ⟨co, handles, hrow, hne, hco, hshape⟩ := ih s hmem
      exact ⟨co, handles, List.mem_cons_of_mem _ hrow, hne, hco, hshape⟩

/-- The collected flush list is the concatenation of per-handle blocks: each
flushed handle immediately followed by its array-framing markers. -/
theorem collectSpec_blocks (isArr : ChannelObjectId → Handle → Bool) (bIsHandover : Bool)
    (fwd : FChannelToHandleToUnresolved) (target : TargetId) (co : ChannelObjectId)
    (handles : List Handle) :
    collectSpec isArr bIsHandover fwd target co handles =
      handles.foldr (fun h acc =>
        (if ((lookupFwd fwd co h).getD []).filter (· ≠ target) = []
         then h :: (if !bIsHandover && isArr co h then [0, 0] else [])
         else []) ++ acc) [] := by
  induction handles with
  | nil => rfl
  | cons x rest ih =>
    simp only [collectSpec, List.foldr_cons] at *
    by_cases hcond : ((lookupFwd fwd co x).getD []).filter (· ≠ target) = []
    · rw [if_pos hcond, if_pos hcond, ih]
    · rw [if_neg hcond, if_neg hcond, ih]
      rfl

/-- Claim C3: after any sequence of `QueueOutgoingUpdate`, `ResetOutgoingUpdate`
and `ResolveOutgoingOperations` calls on a freshly initialised sender, the forward
index (per channel/object pair and field handle, the pending reference set) and
the reverse index (per referenced target, the set of handle mappings) are mutually
consistent: a handle's pending set contains target `t` iff the reverse index entry
for `t` contains that (channel, object) → handle mapping — for both the
fine-grained and the handover containers. -/
theorem resolver_indices_mutually_consistent
    (isArr : ChannelObjectId → Handle → Bool) (ops : List SenderOp)
    (st : USpatialSenderState)
    (h : runSenderOps isArr initialSenderState ops = some st) :
    (∀ t co hdl, t ∈ fwdSet (repMaps st) co hdl ↔ hdl ∈ revHandles (repMaps st) t co) ∧
    (∀ t co hdl, t ∈ fwdSet (handoverMaps st) co hdl ↔
      hdl ∈ revHandles (handoverMaps st) t co) := by
  have hinv := runSenderOps_invariant isArr initialSenderState_invariant h
  exact ⟨hinv.2.1, hinv.2.2.2⟩

/-- Claim C2: for a pending entry whose target set is exactly `\{t1, t2, t3\}`,
resolving the three targets in sequence (the targets are arbitrary, so every order
is an instance) flushes the entry's field handle in no update of the first two
passes and in exactly one update of the last pass; and resolving a target with no
pending entries is a no-op producing no sends. -/
theorem resolver_completeness
    (isArr : ChannelObjectId → Handle → Bool) (m : OutgoingMaps) (bIsHandover : Bool)
    (co : ChannelObjectId) (handle : Handle) (t1 t2 t3 : TargetId)
    (hwf : MapsWF m) (hcons : Consistent m) (h0 : handle ≠ 0)
    (hd12 : t1 ≠ t2) (hd13 : t1 ≠ t3) (hd23 : t2 ≠ t3)
    (hset : ∀ x, x ∈ fwdSet m co handle ↔ (x = t1 ∨ x = t2 ∨ x = t3)) :
    flushCount (resolveOutgoingOperations isArr m t1 bIsHandover).2 co handle = 0 ∧
    flushCount (resolveOutgoingOperations isArr
      (resolveOutgoingOperations isArr m t1 bIsHandover).1 t2 bIsHandover).2 co handle = 0 ∧
    flushCount (resolveOutgoingOperations isArr
      (resolveOutgoingOperations isArr
        (resolveOutgoingOperations isArr m t1 bIsHandover).1 t2 bIsHandover).1
      t3 bIsHandover).2 co handle = 1 ∧
    (∀ target', (∀ co' h', target' ∉ fwdSet m co' h') →
      resolveOutgoingOperations isArr m target' bIsHandover = (m, [])) := by
  obtain ⟨wf1, cons1, fwd1, rev1, sends1⟩ :=
    resolveOutgoingOperations_char isArr m t1 bIsHandover hwf hcons
  -- the set after removing t1
  have hmem1 : t1 ∈ fwdSet m co handle := (hset t1).mpr (Or.inl rfl)
  have hfilter1ne : (fwdSet m co handle).filter (· ≠ t1) ≠ [] := by
    intro hc
    have ht2 : t2 ∈ (fwdSet m co handle).filter (· ≠ t1) :=
      mem_filter_ne.mpr ⟨(hset t2).mpr (Or.inr (Or.inl rfl)), fun hx => hd12 hx.symm⟩
    rw [hc] at ht2
    cases ht2
  have hset1 : ∀ x, x ∈ fwdSet (resolveOutgoingOperations isArr m t1 bIsHandover).1 co handle ↔
      (x = t2 ∨ x = t3) := by
    intro x
    unfold fwdSet
    rw [fwd1 co handle, if_pos hmem1, if_neg hfilter1ne]
    simp only [Option.getD_some]
    rw [mem_filter_ne]
    constructor
    · intro hx
      rcases (hset x).mp hx.1 with h1 | h1 | h1
      · exact absurd h1 hx.2
      · exact Or.inl h1
      · exact Or.inr h1
    · intro hx
      rcases hx with h1 | h1
      · subst h1
        exact ⟨(hset x).mpr (Or.inr (Or.inl rfl)), fun hx => hd12 hx.symm⟩
      · subst h1
        exact ⟨(hset x).mpr (Or.inr (Or.inr rfl)), fun hx => hd13 hx.symm⟩
  obtain ⟨wf2, cons2, fwd2, rev2, sends2⟩ :=
    resolveOutgoingOperations_char isArr
      (resolveOutgoingOperations isArr m t1 bIsHandover).1 t2 bIsHandover wf1 cons1
  have hmem2 : t2 ∈ fwdSet (resolveOutgoingOperations isArr m t1 bIsHandover).1 co handle :=
    (hset1 t2).mpr (Or.inl rfl)
  have hfilter2ne : (fwdSet (resolveOutgoingOperations isArr m t1 bIsHandover).1 co
      handle).filter (· ≠ t2) ≠ [] := by
    intro hc
    have ht3 : t3 ∈ (fwdSet (resolveOutgoingOperations isArr m t1 bIsHandover).1 co
        handle).filter (· ≠ t2) :=
      mem_filter_ne.mpr ⟨(hset1 t3).mpr (Or.inr rfl), fun hx => hd23 hx.symm⟩
    rw [hc] at ht3
    cases ht3
  have hset2 : ∀ x, x ∈ fwdSet (resolveOutgoingOperations isArr
      (resolveOutgoingOperations isArr m t1 bIsHandover).1 t2 bIsHandover).1 co handle ↔
      x = t3 := by
    intro x
    unfold fwdSet
    rw [fwd2 co handle, if_pos hmem2, if_neg hfilter2ne]
    simp only [Option.getD_some]
    rw [mem_filter_ne]
    constructor
    · intro hx
      rcases (hset1 x).mp hx.1 with h1 | h1
      · exact absurd h1 hx.2
      · exact h1
    · intro hx
      subst hx
      exact ⟨(hset1 x).mpr (Or.inr rfl), fun hx => hd23 hx.symm⟩
  obtain ⟨wf3, cons3, fwd3, rev3, sends3⟩ :=
    resolveOutgoingOperations_char isArr
      (resolveOutgoingOperations isArr
        (resolveOutgoingOperations isArr m t1 bIsHandover).1 t2 bIsHandover).1
      t3 bIsHandover wf2 cons2
  refine ⟨?_, ?_, ?_, ?_⟩
  · -- first pass: t2 still pending, the handle is not flushed
    rw [sends1, flushCount_sendsSpec isArr bIsHandover m.propertyToUnresolved t1 _ co handle
      (rowWF_of_lookupRev hwf.2 t1).1 h0]
    rw [if_neg ?_]
    intro hc
    exact hfilter1ne ((mem_collectSpec h0).mp hc).2
  · -- second pass: t3 still pending
    rw [sends2, flushCount_sendsSpec isArr bIsHandover _ t2 _ co handle
      (rowWF_of_lookupRev wf1.2 t2).1 h0]
    rw [if_neg ?_]
    intro hc
    exact hfilter2ne ((mem_collectSpec h0).mp hc).2
  · -- third pass: the set empties, the handle is flushed exactly once
    rw [sends3, flushCount_sendsSpec isArr bIsHandover _ t3 _ co handle
      (rowWF_of_lookupRev wf2.2 t3).1 h0]
    rw [if_pos ?_]
    refine (mem_collectSpec h0).mpr ⟨?_, ?_⟩
    · -- the handle is listed under t3 in the reverse index (by consistency)
      have := (cons2 t3 co handle).mp ((hset2 t3).mpr rfl)
      exact this
    · exact filter_ne_eq_nil (fun x hx => (hset2 x).mp hx)
  · intro target' hnone
    exact resolveOutgoingOperations_noop isArr m target' bIsHandover hwf hcons hnone

/-- Claim C4: one resolve pass batches all now-resolved fine-grained handles of the
same channel/object pair into a single component update whose handle list is the
per-handle block concatenation (each dynamic-array handle immediately followed by
its two zero framing markers) terminated by a sentinel `0`; handover resolutions
are flushed as separate bare handle lists without the zero sentinel; and the
fine-grained framing of an array handle equals the differencer's framing of an
empty dynamic array. -/
theorem resolver_flush_batching (isArr : ChannelObjectId → Handle → Bool)
    (m : OutgoingMaps) (target : TargetId) (hwf : MapsWF m) (hcons : Consistent m) :
    ((resolveOutgoingOperations isArr m target false).2 =
      sendsSpec isArr false m.propertyToUnresolved target
        ((alookup target m.objectToUnresolved).getD [])) ∧
    (∀ s ∈ (resolveOutgoingOperations isArr m target false).2,
      s.handoverChanged = none ∧
      s.repChanged = some (collectSpec isArr false m.propertyToUnresolved target s.co
        (revHandles m target s.co) ++ [0]) ∧
      collectSpec isArr false m.propertyToUnresolved target s.co
        (revHandles m target s.co) ≠ []) ∧
    (∀ s ∈ (resolveOutgoingOperations isArr m target true).2,
      s.repChanged = none ∧
      s.handoverChanged = some (collectSpec isArr true m.propertyToUnresolved target s.co
        (revHandles m target s.co)) ∧
      collectSpec isArr true m.propertyToUnresolved target s.co
        (revHandles m target s.co) ≠ []) ∧
    (∀ fwd co handles, collectSpec isArr false fwd target co handles =
      handles.foldr (fun h acc =>
        (if ((lookupFwd fwd co h).getD []).filter (· ≠ target) = []
         then h :: (if isArr co h then [0, 0] else [])
         else []) ++ acc) []) ∧
    (∀ h : Nat, h :: [0, 0] = chunkEmit (RepLayoutChunk.arr h [])) := by
  have hroweq : ∀ (bIsHandover : Bool) (co : ChannelObjectId) (handles : List Handle),
      (co, handles) ∈ (alookup target m.objectToUnresolved).getD [] →
      revHandles m target co = handles := by
    intro bIsHandover co handles hmemrow
    cases hl : alookup target m.objectToUnresolved with
    | none =>
      rw [hl] at hmemrow
      cases hmemrow
    | some rows =>
      rw [hl] at hmemrow
      have hrwf := hwf.2.2 (target, rows) (alookup_mem hl)
      have hlk : alookup co rows = some handles :=
        alookup_of_mem_nodup hrwf.1 hmemrow
      unfold revHandles lookupRev
      rw [hl]
      simp only [Option.getD_some]
      rw [hlk]
      rfl
  obtain ⟨_, _, _, _, hsf⟩ := resolveOutgoingOperations_char isArr m target false hwf hcons
  obtain ⟨_, _, _, _, hst⟩ := resolveOutgoingOperations_char isArr m target true hwf hcons
  refine ⟨hsf, ?_, ?_, ?_, ?_⟩
  · intro s hs
    rw [hsf] at hs
    obtain ⟨co, handles, hrow, hne, hco, hshape⟩ := sendsSpec_shape s hs
    simp only [Bool.false_eq_true, if_false] at hshape
    subst hco
    rw [hroweq false s.co handles hrow]
    exact ⟨hshape.1, hshape.2, hne⟩
  · intro s hs
    rw [hst] at hs
    obtain ⟨co, handles, hrow, hne, hco, hshape⟩ := sendsSpec_shape s hs
    simp only [if_true] at hshape
    subst hco
    rw [hroweq true s.co handles hrow]
    exact ⟨hshape.1, hshape.2, hne⟩
  · intro fwd co handles
    rw [collectSpec_blocks]
    simp only [Bool.not_false, Bool.true_and]
  · intro h
    rfl


/-- A successful retirement loop visited only non-empty history entries. -/
theorem clearHistoryLoop_entries {hist : Nat → List Nat} {i n : Nat}
    {hist' : Nat → List Nat} (h : clearHistoryLoop hist i n = Except.ok hist') :
    ∀ j, i ≤ j → j < i + n → hist (j % MAX_CHANGE_HISTORY) ≠ [] := by
  induction n generalizing hist i with
  | zero =>
    intro j hj1 hj2
    omega
  | succ n ih =>
    intro j hj1 hj2
    unfold clearHistoryLoop at h
    by_cases hcur : hist (i % MAX_CHANGE_HISTORY) = []
    · rw [if_pos hcur] at h
      cases h
    · rw [if_neg hcur] at h
      by_cases hji : j = i
      · subst hji
        exact hcur
      · have hj1' : i + 1 ≤ j := by omega
        have := ih h j hj1' (by omega)
        by_cases hmod : j % MAX_CHANGE_HISTORY = i % MAX_CHANGE_HISTORY
        · exfalso
          rw [hmod] at this
          simp at this
        · simpa [hmod] using this

/-- The retirement loop succeeds when every visited entry is non-empty (the visited
slots are pairwise distinct as long as the count stays within the ring capacity). -/
theorem clearHistoryLoop_ok {hist : Nat → List Nat} {i n : Nat}
    (hn : n ≤ MAX_CHANGE_HISTORY)
    (h : ∀ j, i ≤ j → j < i + n → hist (j % MAX_CHANGE_HISTORY) ≠ []) :
    ∃ hist', clearHistoryLoop hist i n = Except.ok hist' := by
  induction n generalizing hist i with
  | zero => exact ⟨hist, rfl⟩
  | succ n ih =>
    have hcur : hist (i % MAX_CHANGE_HISTORY) ≠ [] := h i (le_refl i) (by omega)
    have hnext : ∀ j, i + 1 ≤ j → j < (i + 1) + n →
        (if j % MAX_CHANGE_HISTORY = i % MAX_CHANGE_HISTORY then []
         else hist (j % MAX_CHANGE_HISTORY)) ≠ [] := by
      intro j hj1 hj2
      have hmod : j % MAX_CHANGE_HISTORY ≠ i % MAX_CHANGE_HISTORY := by
        intro hc
        have hile : i ≤ j := by omega
        have hdvd : MAX_CHANGE_HISTORY ∣ j - i :=
          (Nat.modEq_iff_dvd' hile).mp hc.symm
        have hpos : 0 < j - i := by omega
        have := Nat.le_of_dvd hpos hdvd
        omega
      simp only [hmod, if_false]
      exact h j (by omega) (by omega)
    obtain ⟨hist', hh⟩ := @ih
      (fun k => if k = i % MAX_CHANGE_HISTORY then [] else hist k)
      (i + 1) (by omega) hnext
    refine ⟨hist', ?_⟩
    unfold clearHistoryLoop
    rw [if_neg hcur]
    exact hh

/-- `UpdateChangelistHistory` succeeds on a well-formed consumer ring, retiring
every entry (the start cursor catches up with the end cursor) and leaving the
cursors and the ring capacity invariant intact. -/
theorem updateChangelistHistory_ok (rs : FRepState)
    (h1 : rs.historyStart ≤ rs.historyEnd)
    (h2 : rs.historyEnd - rs.historyStart < MAX_CHANGE_HISTORY)
    (h3 : ∀ i, rs.historyStart ≤ i → i < rs.historyEnd →
      rs.changeHistory (i % MAX_CHANGE_HISTORY) ≠ []) :
    ∃ rs', updateChangelistHistory rs = Except.ok rs' ∧
      rs'.historyStart = rs'.historyEnd ∧
      rs'.lastChangelistIndex = rs.lastChangelistIndex ∧
      rs'.lastCompareIndex = rs.lastCompareIndex := by
  obtain ⟨hist', hh⟩ := @clearHistoryLoop_ok rs.changeHistory rs.historyStart
    (rs.historyEnd - rs.historyStart)
    (by omega) (fun j hj1 hj2 => h3 j hj1 (by omega))
  have hmain : updateChangelistHistory rs = Except.ok { rs with
      changeHistory := hist'
      historyStart := rs.historyEnd % MAX_CHANGE_HISTORY
      historyEnd := rs.historyEnd % MAX_CHANGE_HISTORY } := by
    unfold updateChangelistHistory
    rw [if_neg (by omega), if_neg (by omega), hh]
  exact ⟨_, hmain, rfl, rfl, rfl⟩

/-- Claim C7: whenever change history is retired, `HistoryEnd - HistoryStart` is
non-negative and below `MAX_CHANGE_HISTORY` and every active entry has a
non-empty change list (the `check`s pass); and appending capacity-plus-one
change lists without any retirement is detected as a fatal invariant violation
by the next retirement call. -/
theorem ledger_capacity_invariant :
    (∀ rs rs', updateChangelistHistory rs = Except.ok rs' →
      rs.historyStart ≤ rs.historyEnd ∧
      rs.historyEnd - rs.historyStart < MAX_CHANGE_HISTORY ∧
      (∀ i, rs.historyStart ≤ i → i < rs.historyEnd →
        rs.changeHistory (i % MAX_CHANGE_HISTORY) ≠ [])) ∧
    (∀ cls : List (List Nat), cls.length = MAX_CHANGE_HISTORY + 1 →
      (∀ c ∈ cls, c ≠ []) →
      ∃ e, updateChangelistHistory (cls.foldl appendChangelist initialRepState) =
        Except.error e) := by
  constructor
  · intro rs rs' h
    unfold updateChangelistHistory at h
    by_cases hc1 : rs.historyEnd < rs.historyStart
    · rw [if_pos hc1] at h
      cases h
    · rw [if_neg hc1] at h
      by_cases hc2 : MAX_CHANGE_HISTORY ≤ rs.historyEnd - rs.historyStart
      · rw [if_pos hc2] at h
        cases h
      · rw [if_neg hc2] at h
        refine ⟨by omega, by omega, ?_⟩
        cases hcl : clearHistoryLoop rs.changeHistory rs.historyStart
            (rs.historyEnd - rs.historyStart) with
        | error e =>
          rw [hcl] at h
          cases h
        | ok hist' =>
          intro i hi1 hi2
          exact clearHistoryLoop_entries hcl i hi1 (by omega)
  · intro cls hlen hne
    have hfold : ∀ (l : List (List Nat)) (rs : FRepState), (∀ c ∈ l, c ≠ []) →
        (l.foldl appendChangelist rs).historyEnd = rs.historyEnd + l.length ∧
        (l.foldl appendChangelist rs).historyStart = rs.historyStart := by
      intro l
      induction l with
      | nil =>
        intro rs _
        exact ⟨rfl, rfl⟩
      | cons c rest ih =>
        intro rs hnec
        have hc : c ≠ [] := hnec c (List.mem_cons_self _ _)
        have happ : (appendChangelist rs c).historyEnd = rs.historyEnd + 1 ∧
            (appendChangelist rs c).historyStart = rs.historyStart := by
          unfold appendChangelist
          rw [if_neg hc]
          exact ⟨rfl, rfl⟩
        have := ih (appendChangelist rs c) (fun x hx => hnec x (List.mem_cons_of_mem _ hx))
        rw [List.foldl_cons]
        refine ⟨?_, ?_⟩
        · rw [this.1, happ.1]
          simp only [List.length_cons]
          omega
        · rw [this.2, happ.2]
    have hend := (hfold cls initialRepState hne).1
    have hstart := (hfold cls initialRepState hne).2
    have hend' : (cls.foldl appendChangelist initialRepState).historyEnd =
        MAX_CHANGE_HISTORY + 1 := by
      rw [hend, hlen]
      rfl
    have hstart' : (cls.foldl appendChangelist initialRepState).historyStart = 0 := hstart
    refine ⟨"HistoryCount must stay below MAX_CHANGE_HISTORY", ?_⟩
    unfold updateChangelistHistory
    rw [hend', hstart']
    rw [if_neg (by omega), if_pos (by omega)]

/-- Claim C8: the emission fragment of `ReplicateActor` emits or queues something
iff the merged replicated change list or the handover change list is non-empty or
the entity is newly created; a newly-created entity is routed through entity
creation (never a component update) and the flag is cleared afterwards, so every
later pass sends the incremental component update; and `SetChannelActor` starts
the creation handshake exactly when the registry has no entity for the actor. -/
theorem replicate_emits_iff_changed
    (bCreating bIsValidWorkingSet : Bool) (workingSetSizeAfterEnqueue : Nat)
    (repChanged handoverChanged : List Nat) (entityIdFromRegistry : Nat) :
    ((replicateActorEmit bCreating bIsValidWorkingSet workingSetSizeAfterEnqueue
        repChanged handoverChanged).1 ≠ [] ↔
      (bCreating = true ∨ repChanged ≠ [] ∨ handoverChanged ≠ [])) ∧
    (bCreating = true →
      ∀ rc hc, ReplicateAction.sendComponentUpdate rc hc ∉
        (replicateActorEmit bCreating bIsValidWorkingSet workingSetSizeAfterEnqueue
          repChanged handoverChanged).1) ∧
    (bCreating = false → (repChanged ≠ [] ∨ handoverChanged ≠ []) →
      (replicateActorEmit bCreating bIsValidWorkingSet workingSetSizeAfterEnqueue
        repChanged handoverChanged).1 =
        [ReplicateAction.sendComponentUpdate repChanged handoverChanged]) ∧
    ((replicateActorEmit bCreating bIsValidWorkingSet workingSetSizeAfterEnqueue
      repChanged handoverChanged).2.2 = false) ∧
    (entityIdFromRegistry = 0 →
      setChannelActorEntity entityIdFromRegistry =
        (true, [SetChannelActorAction.sendReserveEntityIdRequest])) ∧
    (entityIdFromRegistry ≠ 0 →
      setChannelActorEntity entityIdFromRegistry =
        (false, [SetChannelActorAction.addActorChannel entityIdFromRegistry])) := by
  refine ⟨?_, ?_, ?_, ?_, ?_, ?_⟩
  · by_cases hcond : bCreating = true ∨ repChanged ≠ [] ∨ handoverChanged ≠ []
    · rw [iff_true_right hcond]
      unfold replicateActorEmit
      rw [if_pos hcond]
      cases bCreating with
      | true =>
        simp only [if_true]
        cases bIsValidWorkingSet with
        | true => simp
        | false => simp
      | false => simp
    · unfold replicateActorEmit
      rw [if_neg hcond]
      simpa using hcond
  · intro hb rc hc
    subst hb
    unfold replicateActorEmit
    rw [if_pos (Or.inl rfl)]
    simp only [if_true]
    cases bIsValidWorkingSet with
    | true =>
      simp only [if_true]
      intro hmem
      rcases List.mem_cons.mp hmem with h1 | h1
      · cases h1
      · by_cases h3 : workingSetSizeAfterEnqueue = 3
        · rw [if_pos h3] at h1
          rcases List.mem_cons.mp h1 with h2 | h2
          · cases h2
          · cases h2
        · rw [if_neg h3] at h1
          cases h1
    | false =>
      simp only [Bool.false_eq_true, if_false]
      intro hmem
      rcases List.mem_cons.mp hmem with h1 | h1
      · cases h1
      · cases h1
  · intro hb hchanged
    subst hb
    unfold replicateActorEmit
    rw [if_pos (Or.inr hchanged)]
    simp
  · unfold replicateActorEmit
    by_cases hcond : bCreating = true ∨ repChanged ≠ [] ∨ handoverChanged ≠ []
    · rw [if_pos hcond]
      cases bCreating <;> simp
    · rw [if_neg hcond]
      cases bCreating <;> simp
  · intro h0
    unfold setChannelActorEntity
    rw [if_pos h0]
  · intro h0
    unfold setChannelActorEntity
    rw [if_neg h0]

/-- Claim C9: with the actor alive, a reserve-entity-id failure response leaves the
channel state unchanged and re-issues the same reserve request (after a log
message); a create-entity failure response leaves the channel state unchanged and
re-issues the create request with the component set composed from that unchanged
state, so the retried request carries the same composed component set. -/
theorem entity_creation_failure_retries
    (st : ChannelEntityState) (composeComponents : ChannelEntityState → List Nat)
    (opR : Worker_ReserveEntityIdResponseOp) (opC : Worker_CreateEntityResponseOp)
    (hR : opR.statusCode ≠ WORKER_STATUS_CODE_SUCCESS)
    (hC : opC.statusCode ≠ WORKER_STATUS_CODE_SUCCESS) :
    onReserveEntityIdResponse true st opR =
      (st, [ResponseAction.logError, ResponseAction.sendReserveEntityIdRequest]) ∧
    onCreateEntityResponse true composeComponents st opC =
      (st, [ResponseAction.logError,
        ResponseAction.sendCreateEntityRequest (composeComponents st)]) := by
  constructor
  · unfold onReserveEntityIdResponse
    simp only [Bool.not_true, Bool.false_eq_true, if_false]
    rw [if_pos hR]
  · unfold onCreateEntityResponse
    simp only [Bool.not_true, Bool.false_eq_true, if_false]
    rw [if_pos hC]

/-- Claim C10: a `SendRPC` call whose target class has no registered class info
returns immediately: no command request or component update is sent, the
outgoing-RPC map is unchanged, and the caller-owned parameters are not
destroyed. -/
theorem sendRPC_without_class_info_is_noop
    (outgoingRPCs : FOutgoingRPCMap) (targetObject functionId parameters : Nat)
    (targetEntity : Option Nat) (payloadUnresolved : Option TargetId)
    (rpcComponentId : Nat) (bOwnParameters : Bool) :
    sendRPC outgoingRPCs none targetObject functionId parameters targetEntity
      payloadUnresolved rpcComponentId bOwnParameters =
      SendRPCResult.mk outgoingRPCs [] false := rfl


theorem mem_mergeChangeList_left {x : Nat} {base extra : List Nat} (h : x ∈ base) :
    x ∈ mergeChangeList base extra := by
  unfold mergeChangeList
  exact List.mem_append_left _ h

theorem mem_mergeChangeList_right {x : Nat} {base extra : List Nat} (h : x ∈ extra) :
    x ∈ mergeChangeList base extra := by
  unfold mergeChangeList
  by_cases hb : x ∈ base
  · exact List.mem_append_left _ hb
  · refine List.mem_append_right _ ?_
    rw [List.mem_filter]
    exact ⟨h, by simpa using hb⟩

theorem foldl_merge_mono (g : Nat → List Nat) :
    ∀ (l : List Nat) (acc : List Nat) (x : Nat), x ∈ acc →
      x ∈ l.foldl (fun acc i => mergeChangeList acc (g i)) acc := by
  intro l
  induction l with
  | nil =>
    intro acc x hx
    exact hx
  | cons j rest ih =>
    intro acc x hx
    rw [List.foldl_cons]
    exact ih _ x (mem_mergeChangeList_left hx)

theorem foldl_merge_entry (g : Nat → List Nat) :
    ∀ (l : List Nat) (acc : List Nat) (i : Nat), i ∈ l → ∀ x ∈ g i,
      x ∈ l.foldl (fun acc i => mergeChangeList acc (g i)) acc := by
  intro l
  induction l with
  | nil =>
    intro acc i hi
    cases hi
  | cons j rest ih =>
    intro acc i hi x hx
    rw [List.foldl_cons]
    rcases List.mem_cons.mp hi with h1 | h1
    · subst h1
      exact foldl_merge_mono g rest _ x (mem_mergeChangeList_right hx)
    · exact ih _ i h1 x hx

theorem mem_range'_of : ∀ (n s m : Nat), s ≤ m → m < s + n → m ∈ List.range' s n := by
  intro n
  induction n with
  | zero =>
    intro s m h1 h2
    omega
  | succ n ih =>
    intro s m h1 h2
    rw [List.range'_succ]
    by_cases hm : m = s
    · subst hm
      exact List.mem_cons_self _ _
    · exact List.mem_cons_of_mem _ (ih (s + 1) m (by omega) (by omega))

/-- Every shared-ledger entry in the merge window lands in the accumulated merged
changelist. -/
theorem mem_gatherMerged_entry (cls : FRepChangelistState) (fromIdx : Nat)
    (initial : List Nat) (i : Nat) (h1 : fromIdx ≤ i) (h2 : i < cls.historyEnd) :
    ∀ x ∈ cls.changeHistory (i % MAX_CHANGE_HISTORY),
      x ∈ gatherMerged cls fromIdx initial := by
  intro x hx
  unfold gatherMerged
  exact foldl_merge_entry (fun i => cls.changeHistory (i % MAX_CHANGE_HISTORY))
    (List.range' fromIdx (cls.historyEnd - fromIdx)) initial i
    (mem_range'_of _ _ _ h1 (by omega)) x hx

/-- Claim C1: a replication pass of one consumer merges every shared-ledger entry
in its unread window into its accumulated changelist before anything is retired,
then advances its cursor past the window; retirement clears only the consumer's
own accumulation ring, leaves the shared ledger and the second consumer entirely
untouched, and therefore cannot outrun the slower consumer, whose subsequent
merge still sees exactly the same entries. -/
theorem ledger_retirement_after_merge
    (sys : TwoConsumerLedger) (bCreating : Bool) (handoverChanged : List Nat)
    (hse : sys.primary.historyStart ≤ sys.primary.historyEnd)
    (hcount : sys.primary.historyEnd - sys.primary.historyStart + 1 < MAX_CHANGE_HISTORY)
    (hentries : ∀ i, sys.primary.historyStart ≤ i → i < sys.primary.historyEnd →
      sys.primary.changeHistory (i % MAX_CHANGE_HISTORY) ≠ []) :
    ∃ sys' out, replicatePrimary sys bCreating handoverChanged = Except.ok (sys', out) ∧
      (∀ i, sys.primary.lastChangelistIndex ≤ i → i < sys.cls.historyEnd →
        ∀ x ∈ sys.cls.changeHistory (i % MAX_CHANGE_HISTORY),
          x ∈ gatherMerged sys.cls sys.primary.lastChangelistIndex
            (sys.primary.changeHistory (sys.primary.historyEnd % MAX_CHANGE_HISTORY))) ∧
      sys'.primary.lastChangelistIndex = sys.cls.historyEnd ∧
      sys'.primary.historyStart = sys'.primary.historyEnd ∧
      sys'.cls = sys.cls ∧ sys'.secondary = sys.secondary ∧
      gatherMerged sys'.cls sys'.secondary.lastChangelistIndex
          (sys'.secondary.changeHistory
            (sys'.secondary.historyEnd % MAX_CHANGE_HISTORY)) =
        gatherMerged sys.cls sys.secondary.lastChangelistIndex
          (sys.secondary.changeHistory (sys.secondary.historyEnd % MAX_CHANGE_HISTORY)) := by
  set slot := sys.primary.historyEnd % MAX_CHANGE_HISTORY with hslot
  set merged := gatherMerged sys.cls sys.primary.lastChangelistIndex
    (sys.primary.changeHistory slot) with hmergeddef
  set doSend := (bCreating || !merged.isEmpty || !handoverChanged.isEmpty) with hdosend
  set rs1 : FRepState := { sys.primary with
    changeHistory := fun j => if j = slot then merged else sys.primary.changeHistory j
    lastCompareIndex := sys.cls.compareIndex } with hrs1
  set rs2 : FRepState := (if doSend && !merged.isEmpty
    then { rs1 with historyEnd := rs1.historyEnd + 1 } else rs1) with hrs2
  have hunfold : replicateActorChangelists sys.cls sys.primary bCreating handoverChanged =
      (match updateChangelistHistory rs2 with
       | Except.error e => Except.error e
       | Except.ok rs3 =>
         Except.ok ({ rs3 with lastChangelistIndex := sys.cls.historyEnd },
           if doSend then some merged else none)) := rfl
  have hstart2 : rs2.historyStart = sys.primary.historyStart := by
    rw [hrs2]
    by_cases hc : (doSend && !merged.isEmpty) = true
    · rw [if_pos hc]
    · rw [if_neg hc]
  have hch2 : rs2.changeHistory =
      fun j => if j = slot then merged else sys.primary.changeHistory j := by
    rw [hrs2]
    by_cases hc : (doSend && !merged.isEmpty) = true
    · rw [if_pos hc]
    · rw [if_neg hc]
  have hend2 : rs2.historyEnd = (if (doSend && !merged.isEmpty) = true
      then sys.primary.historyEnd + 1 else sys.primary.historyEnd) := by
    rw [hrs2]
    by_cases hc : (doSend && !merged.isEmpty) = true
    · rw [if_pos hc, if_pos hc]
    · rw [if_neg hc, if_neg hc]
  have hmodne : ∀ i, sys.primary.historyStart ≤ i → i < sys.primary.historyEnd →
      i % MAX_CHANGE_HISTORY ≠ slot := by
    intro i h1 h2 hc
    rw [hslot] at hc
    have hdvd : MAX_CHANGE_HISTORY ∣ sys.primary.historyEnd - i :=
      (Nat.modEq_iff_dvd' (by omega : i ≤ sys.primary.historyEnd)).mp hc
    have hpos : 0 < sys.primary.historyEnd - i := by omega
    have := Nat.le_of_dvd hpos hdvd
    omega
  have hentries2 : ∀ i, rs2.historyStart ≤ i → i < rs2.historyEnd →
      rs2.changeHistory (i % MAX_CHANGE_HISTORY) ≠ [] := by
    intro i hi1 hi2
    rw [hch2]
    rw [hstart2] at hi1
    by_cases hiend : i < sys.primary.historyEnd
    · have hne := hmodne i hi1 hiend
      simp only [hne, if_false]
      exact hentries i hi1 hiend
    · have happ : (doSend && !merged.isEmpty) = true := by
        by_contra hC
        rw [hend2, if_neg hC] at hi2
        omega
      have hieq : i = sys.primary.historyEnd := by
        rw [hend2, if_pos happ] at hi2
        omega
      have hmne : merged ≠ [] := by
        intro hc
        rw [hc] at happ
        simp at happ
      rw [hieq, ← hslot]
      simp only [if_true, eq_self_iff_true]
      exact hmne
  obtain ⟨rs3, hok, hse3, hlast3, hcomp3⟩ := updateChangelistHistory_ok rs2
    (by
      rw [hstart2, hend2]
      by_cases hc : (doSend && !merged.isEmpty) = true
      · rw [if_pos hc]
        omega
      · rw [if_neg hc]
        omega)
    (by
      rw [hstart2, hend2]
      by_cases hc : (doSend && !merged.isEmpty) = true
      · rw [if_pos hc]
        omega
      · rw [if_neg hc]
        omega)
    hentries2
  refine ⟨{ sys with primary := { rs3 with lastChangelistIndex := sys.cls.historyEnd } },
    (if doSend then some merged else none), ?_, ?_, rfl, hse3, rfl, rfl, rfl⟩
  · unfold replicatePrimary
    rw [hunfold, hok]
  · intro i h1 h2 x hx
    rw [hmergeddef]
    exact mem_gatherMerged_entry sys.cls sys.primary.lastChangelistIndex _ i h1 h2 x hx


/-- Interior commands of an array (balanced, nested at depth at least 1) emit
exactly their relative handles — no extra count markers — and leave the walk at
depth 1 just before the array's terminating null. -/
theorem interior_emits : ∀ (xs rest : List RepLayoutCmd) (idx d : Nat), 1 ≤ d →
    interiorBalanced xs d = true →
    createInitialRepChangeStateAux (xs ++ rest) idx d =
      xs.map (·.relativeHandle) ++
        createInitialRepChangeStateAux rest (idx + xs.length) 1 := by
  intro xs
  induction xs with
  | nil =>
    intro rest idx d hd hbal
    have hd1 : d = 1 := by simpa [interiorBalanced] using hbal
    subst hd1
    simp
  | cons cmd xs ih =>
    intro rest idx d hd hbal
    cases htype : cmd.type with
    | dynamicArray =>
      simp only [interiorBalanced, htype] at hbal
      have hstep : createInitialRepChangeStateAux ((cmd :: xs) ++ rest) idx d =
          cmd.relativeHandle ::
            ((if d + 1 = 1 then [cmd.endCmd - idx - 2] else []) ++
              createInitialRepChangeStateAux (xs ++ rest) (idx + 1) (d + 1)) := by
        rw [List.cons_append]
        simp only [createInitialRepChangeStateAux, htype]
      rw [hstep, if_neg (by omega)]
      rw [ih rest (idx + 1) (d + 1) (by omega) hbal]
      simp only [List.map_cons, List.length_cons, List.nil_append, List.cons_append]
      rw [show idx + 1 + xs.length = idx + (xs.length + 1) from by omega]
    | ret =>
      simp only [interiorBalanced, htype] at hbal
      have h2d : 2 ≤ d ∧ interiorBalanced xs (d - 1) = true := by
        rcases Bool.and_eq_true_iff.mp hbal with ⟨ha, hb⟩
        exact ⟨by simpa using ha, hb⟩
      have hstep : createInitialRepChangeStateAux ((cmd :: xs) ++ rest) idx d =
          cmd.relativeHandle ::
            createInitialRepChangeStateAux (xs ++ rest) (idx + 1) (d - 1) := by
        rw [List.cons_append]
        simp only [createInitialRepChangeStateAux, htype]
      rw [hstep, ih rest (idx + 1) (d - 1) (by omega) h2d.2]
      simp only [List.map_cons, List.length_cons, List.cons_append]
      rw [show idx + 1 + xs.length = idx + (xs.length + 1) from by omega]
    | property =>
      simp only [interiorBalanced, htype] at hbal
      have hstep : createInitialRepChangeStateAux ((cmd :: xs) ++ rest) idx d =
          cmd.relativeHandle ::
            createInitialRepChangeStateAux (xs ++ rest) (idx + 1) d := by
        rw [List.cons_append]
        simp only [createInitialRepChangeStateAux, htype]
      rw [hstep, ih rest (idx + 1) d hd hbal]
      simp only [List.map_cons, List.length_cons, List.cons_append]
      rw [show idx + 1 + xs.length = idx + (xs.length + 1) from by omega]

/-- The command walk over encoded chunks produces exactly the per-chunk emission. -/
theorem chunkCmds_emits : ∀ (chunks : List RepLayoutChunk) (idx : Nat), chunksWF chunks →
    createInitialRepChangeStateAux
        (chunkCmds chunks idx ++ [RepLayoutCmd.mk 0 RepCmdType.ret 0]) idx 0 =
      chunks.foldr (fun c acc => chunkEmit c ++ acc) [] ++ [0] := by
  intro chunks
  induction chunks with
  | nil =>
    intro idx _
    simp [chunkCmds, createInitialRepChangeStateAux]
  | cons c rest ih =>
    intro idx hwf
    have hwfrest : chunksWF rest :=
      fun x hx h interior he => hwf x (List.mem_cons_of_mem _ hx) h interior he
    cases c with
    | prop h =>
      have hstep : chunkCmds (RepLayoutChunk.prop h :: rest) idx ++
          [RepLayoutCmd.mk 0 RepCmdType.ret 0] =
          RepLayoutCmd.mk h RepCmdType.property 0 ::
            (chunkCmds rest (idx + 1) ++ [RepLayoutCmd.mk 0 RepCmdType.ret 0]) := by
        simp [chunkCmds]
      rw [hstep]
      simp only [createInitialRepChangeStateAux]
      rw [ih (idx + 1) hwfrest]
      simp [chunkEmit]
    | arr h interior =>
      have hbal : interiorBalanced interior 1 = true :=
        hwf (RepLayoutChunk.arr h interior) (List.mem_cons_self _ _) h interior rfl
      have hstep : chunkCmds (RepLayoutChunk.arr h interior :: rest) idx ++
          [RepLayoutCmd.mk 0 RepCmdType.ret 0] =
          RepLayoutCmd.mk h RepCmdType.dynamicArray (idx + interior.length + 2) ::
            (interior ++
              (RepLayoutCmd.mk 0 RepCmdType.ret 0 ::
                (chunkCmds rest (idx + interior.length + 2) ++
                  [RepLayoutCmd.mk 0 RepCmdType.ret 0]))) := by
        simp [chunkCmds, List.append_assoc]
      rw [hstep]
      simp only [createInitialRepChangeStateAux, if_true, Nat.zero_add]
      rw [interior_emits interior _ (idx + 1) 1 (le_refl 1) hbal]
      have hretstep : createInitialRepChangeStateAux
          (RepLayoutCmd.mk 0 RepCmdType.ret 0 ::
            (chunkCmds rest (idx + interior.length + 2) ++
              [RepLayoutCmd.mk 0 RepCmdType.ret 0])) (idx + 1 + interior.length) 1 =
          0 :: createInitialRepChangeStateAux
            (chunkCmds rest (idx + interior.length + 2) ++
              [RepLayoutCmd.mk 0 RepCmdType.ret 0]) (idx + 1 + interior.length + 1) 0 := by
        simp only [createInitialRepChangeStateAux]
      rw [hretstep]
      rw [show idx + 1 + interior.length + 1 = idx + interior.length + 2 from by omega]
      rw [ih (idx + interior.length + 2) hwfrest]
      simp only [chunkEmit, List.foldr_cons]
      rw [show idx + interior.length + 2 - idx - 2 = interior.length from by omega]
      simp [List.append_assoc]

/-- Claim C6: in the initial change state, every root-level dynamic array's handle
is immediately followed by a count marker equal to the number of interior
commands, whose handles follow before the array's terminating null — so a
handle-list consumer can skip the array interior without schema knowledge; the
whole walk matches the per-chunk framing used across the change-list format. -/
theorem initial_change_state_array_markers (chunks : List RepLayoutChunk)
    (hwf : chunksWF chunks) :
    createInitialRepChangeState (toRepLayoutCmds chunks) = initialRepChangeSpec chunks ∧
    (∀ h interior, chunkEmit (RepLayoutChunk.arr h interior) =
      h :: interior.length :: (interior.map (·.relativeHandle) ++ [0])) :=
  ⟨chunkCmds_emits chunks 0 hwf, fun _ _ => rfl⟩


theorem align_ge {a : Nat} (n : Nat) (ha : 1 ≤ a) : n ≤ align n a := by
  unfold align
  have h1 := Nat.div_add_mod (n + a - 1) a
  have h2 : (n + a - 1) % a < a := Nat.mod_lt _ (by omega)
  have h3 : ((n + a - 1) / a) * a = a * ((n + a - 1) / a) := Nat.mul_comm _ _
  omega

theorem readBytes_length (mem : Nat → Nat) (off size : Nat) :
    (readBytes mem off size).length = size := by
  simp [readBytes]

theorem readBytes_congr {m1 m2 : Nat → Nat} {off size : Nat}
    (h : ∀ a, off ≤ a → a < off + size → m1 a = m2 a) :
    readBytes m1 off size = readBytes m2 off size := by
  unfold readBytes
  apply List.map_congr_left
  intro i hi
  rw [List.mem_range] at hi
  exact h (off + i) (by omega) (by omega)

theorem readBytes_writeBytes_outside {mem : Nat → Nat} {off : Nat} {v : List Nat}
    {off2 size : Nat} (h : off + v.length ≤ off2 ∨ off2 + size ≤ off) :
    readBytes (writeBytes mem off v) off2 size = readBytes mem off2 size := by
  apply readBytes_congr
  intro a ha1 ha2
  unfold writeBytes
  rw [if_neg ?_]
  intro hc
  rcases h with h | h
  · omega
  · omega

theorem readBytes_writeBytes_self (mem : Nat → Nat) (off : Nat) (v : List Nat) :
    readBytes (writeBytes mem off v) off v.length = v := by
  apply List.ext_get
  · simp [readBytes]
  · intro i h1 h2
    simp only [readBytes, List.get_eq_getElem, List.getElem_map, List.getElem_range]
    unfold writeBytes
    rw [if_pos ⟨by omega, by omega⟩]
    rw [show off + i - off = i from by omega]
    rw [List.getD_eq_getElem?_getD]
    rw [List.getElem?_eq_getElem h2]
    rfl

theorem writeBytes_below {mem : Nat → Nat} {off : Nat} {v : List Nat} {a : Nat}
    (h : a < off) : writeBytes mem off v a = mem a := by
  unfold writeBytes
  rw [if_neg ?_]
  intro hc
  omega

theorem handoverShadowOffsets_length (props : List FHandoverPropertyInfo) (base : Nat) :
    (handoverShadowOffsets props base).length = props.length := by
  induction props generalizing base with
  | nil => rfl
  | cons p rest ih =>
    simp [handoverShadowOffsets, ih]

theorem handoverShadowOffsets_ge :
    ∀ (props : List FHandoverPropertyInfo) (base : Nat),
      (∀ p ∈ props, 1 ≤ p.minAlignment) →
      ∀ o ∈ handoverShadowOffsets props base, base ≤ o := by
  intro props
  induction props with
  | nil =>
    intro base _ o ho
    cases ho
  | cons p rest ih =>
    intro base hal o ho
    have hp : 1 ≤ p.minAlignment := hal p (List.mem_cons_self _ _)
    rcases List.mem_cons.mp ho with h1 | h1
    · subst h1
      exact align_ge base hp
    · have := ih (align base p.minAlignment + p.elementSize)
        (fun q hq => hal q (List.mem_cons_of_mem _ hq)) o h1
      have h2 := align_ge (a := p.minAlignment) base hp
      omega

/-- Full characterisation of the `GetHandoverChangeList` walk from an arbitrary
starting shadow offset: the handles returned are exactly those of the properties
whose stored bytes differ (or all of them when the entity is being created), the
final shadow buffer holds the object's current bytes at every property's slot,
and bytes below the starting offset are untouched. -/
theorem getHandoverChangeListAux_char (bC : Bool) (objectData : Nat → Nat) :
    ∀ (props : List FHandoverPropertyInfo) (off : Nat) (shadowData : Nat → Nat),
      (∀ p ∈ props, 1 ≤ p.minAlignment) →
      ((getHandoverChangeListAux bC objectData props off shadowData).1 =
        ((props.zip (handoverShadowOffsets props off)).filter
          (fun pz => bC = true ∨ readBytes shadowData pz.2 pz.1.elementSize ≠
            readBytes objectData pz.1.offset pz.1.elementSize)).map
          (fun pz => pz.1.handle)) ∧
      (∀ pz ∈ props.zip (handoverShadowOffsets props off),
        readBytes (getHandoverChangeListAux bC objectData props off shadowData).2 pz.2
          pz.1.elementSize = readBytes objectData pz.1.offset pz.1.elementSize) ∧
      (∀ a, a < off →
        (getHandoverChangeListAux bC objectData props off shadowData).2 a =
          shadowData a) := by
  intro props
  induction props with
  | nil =>
    intro off shadowData _
    refine ⟨rfl, ?_, fun a _ => rfl⟩
    intro pz hpz
    cases hpz
  | cons p rest ih =>
    intro off shadowData hal
    have hp : 1 ≤ p.minAlignment := hal p (List.mem_cons_self _ _)
    have halr : ∀ q ∈ rest, 1 ≤ q.minAlignment :=
      fun q hq => hal q (List.mem_cons_of_mem _ hq)
    have hoffge := align_ge (a := p.minAlignment) off hp
    have hzipstep : (p :: rest).zip (handoverShadowOffsets (p :: rest) off) =
        (p, align off p.minAlignment) ::
          rest.zip (handoverShadowOffsets rest (align off p.minAlignment + p.elementSize)) := by
      simp [handoverShadowOffsets]
    have hrestge : ∀ pz ∈ rest.zip
        (handoverShadowOffsets rest (align off p.minAlignment + p.elementSize)),
        align off p.minAlignment + p.elementSize ≤ pz.2 := by
      intro pz hpz
      exact handoverShadowOffsets_ge rest _ halr pz.2 (List.of_mem_zip hpz).2
    by_cases hcond : bC = true ∨
        readBytes shadowData (align off p.minAlignment) p.elementSize ≠
          readBytes objectData p.offset p.elementSize
    · -- changed (or forced): record the handle, copy into the shadow buffer
      have hstep : getHandoverChangeListAux bC objectData (p :: rest) off shadowData =
          (p.handle :: (getHandoverChangeListAux bC objectData rest
              (align off p.minAlignment + p.elementSize)
              (writeBytes shadowData (align off p.minAlignment)
                (readBytes objectData p.offset p.elementSize))).1,
            (getHandoverChangeListAux bC objectData rest
              (align off p.minAlignment + p.elementSize)
              (writeBytes shadowData (align off p.minAlignment)
                (readBytes objectData p.offset p.elementSize))).2) := by
        simp only [getHandoverChangeListAux]
        rw [if_pos hcond]
      obtain ⟨ih1, ih2, ih3⟩ := ih (align off p.minAlignment + p.elementSize)
        (writeBytes shadowData (align off p.minAlignment)
          (readBytes objectData p.offset p.elementSize)) halr
      have hreadpres : ∀ pz ∈ rest.zip
          (handoverShadowOffsets rest (align off p.minAlignment + p.elementSize)),
          readBytes (writeBytes shadowData (align off p.minAlignment)
              (readBytes objectData p.offset p.elementSize)) pz.2 pz.1.elementSize =
            readBytes shadowData pz.2 pz.1.elementSize := by
        intro pz hpz
        apply readBytes_writeBytes_outside
        left
        rw [readBytes_length]
        exact hrestge pz hpz
      refine ⟨?_, ?_, ?_⟩
      · rw [hstep]
        simp only
        rw [ih1, hzipstep, List.filter_cons]
        rw [if_pos (by simpa using hcond)]
        simp only [List.map_cons]
        congr 1
        congr 1
        apply List.filter_congr
        intro pz hpz
        rw [hreadpres pz hpz]
      · intro pz hpz
        rw [hzipstep] at hpz
        rcases List.mem_cons.mp hpz with h1 | h1
        · subst h1
          rw [hstep]
          simp only
          have hfin : readBytes (getHandoverChangeListAux bC objectData rest
              (align off p.minAlignment + p.elementSize)
              (writeBytes shadowData (align off p.minAlignment)
                (readBytes objectData p.offset p.elementSize))).2
              (align off p.minAlignment) p.elementSize =
              readBytes (writeBytes shadowData (align off p.minAlignment)
                (readBytes objectData p.offset p.elementSize))
                (align off p.minAlignment) p.elementSize := by
            apply readBytes_congr
            intro a ha1 ha2
            exact ih3 a (by omega)
          rw [hfin]
          have := readBytes_writeBytes_self shadowData (align off p.minAlignment)
            (readBytes objectData p.offset p.elementSize)
          rw [readBytes_length] at this
          exact this
        · rw [hstep]
          simp only
          exact ih2 pz h1
      · intro a ha
        rw [hstep]
        simp only
        rw [ih3 a (by omega)]
        exact writeBytes_below (by omega)
    · -- unchanged: skip, leave the shadow bytes alone
      have hstep : getHandoverChangeListAux bC objectData (p :: rest) off shadowData =
          getHandoverChangeListAux bC objectData rest
            (align off p.minAlignment + p.elementSize) shadowData := by
        simp only [getHandoverChangeListAux]
        rw [if_neg hcond]
      obtain ⟨ih1, ih2, ih3⟩ := ih (align off p.minAlignment + p.elementSize) shadowData halr
      refine ⟨?_, ?_, ?_⟩
      · rw [hstep, ih1, hzipstep, List.filter_cons]
        rw [if_neg (by simpa using hcond)]
      · intro pz hpz
        rw [hzipstep] at hpz
        rcases List.mem_cons.mp hpz with h1 | h1
        · subst h1
          rw [hstep]
          have hstored : readBytes shadowData (align off p.minAlignment) p.elementSize =
              readBytes objectData p.offset p.elementSize := by
            by_contra hc
            exact hcond (Or.inr hc)
          have hfin : readBytes (getHandoverChangeListAux bC objectData rest
              (align off p.minAlignment + p.elementSize) shadowData).2
              (align off p.minAlignment) p.elementSize =
              readBytes shadowData (align off p.minAlignment) p.elementSize := by
            apply readBytes_congr
            intro a ha1 ha2
            exact ih3 a (by omega)
          rw [hfin, hstored]
        · rw [hstep]
          exact ih2 pz h1
      · intro a ha
        rw [hstep]
        exact ih3 a (by omega)

/-- Claim C5: outside entity creation, `GetHandoverChangeList` returns exactly the
handles of the handover properties whose current packed bytes differ from the
shadow buffer, and afterwards the shadow buffer matches the object's current
bytes at every handover property; with `bCreatingNewEntity` set, every handover
property's handle is returned (a full snapshot) and the shadow buffer is likewise
synchronised. -/
theorem getHandoverChangeList_correct (handoverProperties : List FHandoverPropertyInfo)
    (objectData shadowData : Nat → Nat)
    (hal : ∀ p ∈ handoverProperties, 1 ≤ p.minAlignment) :
    ((getHandoverChangeList false objectData handoverProperties shadowData).1 =
      handoverChangedSpec objectData shadowData handoverProperties) ∧
    (∀ pz ∈ handoverProperties.zip (handoverShadowOffsets handoverProperties 0),
      readBytes (getHandoverChangeList false objectData handoverProperties shadowData).2
        pz.2 pz.1.elementSize = readBytes objectData pz.1.offset pz.1.elementSize) ∧
    ((getHandoverChangeList true objectData handoverProperties shadowData).1 =
      handoverProperties.map (fun p => p.handle)) ∧
    (∀ pz ∈ handoverProperties.zip (handoverShadowOffsets handoverProperties 0),
      readBytes (getHandoverChangeList true objectData handoverProperties shadowData).2
        pz.2 pz.1.elementSize = readBytes objectData pz.1.offset pz.1.elementSize) := by
  obtain ⟨hf1, hf2, _⟩ := getHandoverChangeListAux_char false objectData
    handoverProperties 0 shadowData hal
  obtain ⟨ht1, ht2, _⟩ := getHandoverChangeListAux_char true objectData
    handoverProperties 0 shadowData hal
  refine ⟨?_, hf2, ?_, ht2⟩
  · rw [show getHandoverChangeList false objectData handoverProperties shadowData =
      getHandoverChangeListAux false objectData handoverProperties 0 shadowData from rfl]
    rw [hf1]
    unfold handoverChangedSpec
    congr 1
    apply List.filter_congr
    intro pz _
    simp
  · rw [show getHandoverChangeList true objectData handoverProperties shadowData =
      getHandoverChangeListAux true objectData handoverProperties 0 shadowData from rfl]
    rw [ht1]
    have hall : ∀ pz ∈ handoverProperties.zip (handoverShadowOffsets handoverProperties 0),
        (decide (True ∨ readBytes shadowData pz.2 pz.1.elementSize ≠
          readBytes objectData pz.1.offset pz.1.elementSize)) = true := by
      intro pz _
      simp
    rw [List.filter_eq_self.mpr ?_]
    · rw [show (fun pz : FHandoverPropertyInfo × Nat => pz.1.handle) =
        (fun p : FHandoverPropertyInfo => p.handle) ∘ Prod.fst from rfl]
      rw [← List.map_map]
      rw [List.map_fst_zip]
      rw [handoverShadowOffsets_length]
    · intro pz _
      simp


/-!
## Closed evaluations of the claim theorems
-/

/-- The index mutual-consistency theorem evaluated on the concrete state reached
by `senderOpsW`. -/
theorem resolver_indices_mutually_consistent_witness :
    (∀ t co hdl, t ∈ fwdSet (repMaps senderStateW) co hdl ↔
      hdl ∈ revHandles (repMaps senderStateW) t co) ∧
    (∀ t co hdl, t ∈ fwdSet (handoverMaps senderStateW) co hdl ↔
      hdl ∈ revHandles (handoverMaps senderStateW) t co) :=
  resolver_indices_mutually_consistent isArrNoneW senderOpsW senderStateW rfl

/-- The resolver-completeness theorem evaluated on the concrete pending entry of
`senderStateW` (handle `5`, target set `10`, `11`, `12`). -/
theorem resolver_completeness_witness :
    flushCount (resolveOutgoingOperations isArrNoneW (repMaps senderStateW)
      10 false).2 1 5 = 0 ∧
    flushCount (resolveOutgoingOperations isArrNoneW
      (resolveOutgoingOperations isArrNoneW (repMaps senderStateW) 10 false).1
      11 false).2 1 5 = 0 ∧
    flushCount (resolveOutgoingOperations isArrNoneW
      (resolveOutgoingOperations isArrNoneW
        (resolveOutgoingOperations isArrNoneW (repMaps senderStateW) 10 false).1
        11 false).1 12 false).2 1 5 = 1 ∧
    (∀ target', (∀ co' h', target' ∉ fwdSet (repMaps senderStateW) co' h') →
      resolveOutgoingOperations isArrNoneW (repMaps senderStateW) target' false =
        (repMaps senderStateW, [])) := by
  have hinv := runSenderOps_invariant isArrNoneW initialSenderState_invariant
    (rfl : runSenderOps isArrNoneW initialSenderState senderOpsW = some senderStateW)
  exact resolver_completeness isArrNoneW (repMaps senderStateW) false 1 5 10 11 12
    hinv.1 hinv.2.1 (by decide) (by decide) (by decide) (by decide)
    (fun x => by
      rw [show fwdSet (repMaps senderStateW) 1 5 = [10, 11, 12] from rfl]
      simp)

/-- The flush-batching theorem evaluated on the concrete state reached by
`senderOpsArrW` (a plain handle and a dynamic-array handle on one pair). -/
theorem resolver_flush_batching_witness :
    ((resolveOutgoingOperations isArr7W (repMaps senderStateArrW) 10 false).2 =
      sendsSpec isArr7W false (repMaps senderStateArrW).propertyToUnresolved 10
        ((alookup 10 (repMaps senderStateArrW).objectToUnresolved).getD [])) ∧
    (∀ s ∈ (resolveOutgoingOperations isArr7W (repMaps senderStateArrW) 10 false).2,
      s.handoverChanged = none ∧
      s.repChanged = some (collectSpec isArr7W false
        (repMaps senderStateArrW).propertyToUnresolved 10 s.co
        (revHandles (repMaps senderStateArrW) 10 s.co) ++ [0]) ∧
      collectSpec isArr7W false (repMaps senderStateArrW).propertyToUnresolved 10 s.co
        (revHandles (repMaps senderStateArrW) 10 s.co) ≠ []) ∧
    (∀ s ∈ (resolveOutgoingOperations isArr7W (repMaps senderStateArrW) 10 true).2,
      s.repChanged = none ∧
      s.handoverChanged = some (collectSpec isArr7W true
        (repMaps senderStateArrW).propertyToUnresolved 10 s.co
        (revHandles (repMaps senderStateArrW) 10 s.co)) ∧
      collectSpec isArr7W true (repMaps senderStateArrW).propertyToUnresolved 10 s.co
        (revHandles (repMaps senderStateArrW) 10 s.co) ≠ []) ∧
    (∀ fwd co handles, collectSpec isArr7W false fwd 10 co handles =
      handles.foldr (fun h acc =>
        (if ((lookupFwd fwd co h).getD []).filter (· ≠ 10) = []
         then h :: (if isArr7W co h then [0, 0] else [])
         else []) ++ acc) []) ∧
    (∀ h : Nat, h :: [0, 0] = chunkEmit (RepLayoutChunk.arr h [])) := by
  have hinv := runSenderOps_invariant isArr7W initialSenderState_invariant
    (rfl : runSenderOps isArr7W initialSenderState senderOpsArrW = some senderStateArrW)
  exact resolver_flush_batching isArr7W (repMaps senderStateArrW) 10 hinv.1 hinv.2.1

/-- The ledger-retirement theorem evaluated on the concrete two-consumer ledger
`ledgerW`. -/
theorem ledger_retirement_after_merge_witness :
    ∃ sys' out, replicatePrimary ledgerW false [] = Except.ok (sys', out) ∧
      (∀ i, ledgerW.primary.lastChangelistIndex ≤ i → i < ledgerW.cls.historyEnd →
        ∀ x ∈ ledgerW.cls.changeHistory (i % MAX_CHANGE_HISTORY),
          x ∈ gatherMerged ledgerW.cls ledgerW.primary.lastChangelistIndex
            (ledgerW.primary.changeHistory
              (ledgerW.primary.historyEnd % MAX_CHANGE_HISTORY))) ∧
      sys'.primary.lastChangelistIndex = ledgerW.cls.historyEnd ∧
      sys'.primary.historyStart = sys'.primary.historyEnd ∧
      sys'.cls = ledgerW.cls ∧ sys'.secondary = ledgerW.secondary ∧
      gatherMerged sys'.cls sys'.secondary.lastChangelistIndex
          (sys'.secondary.changeHistory
            (sys'.secondary.historyEnd % MAX_CHANGE_HISTORY)) =
        gatherMerged ledgerW.cls ledgerW.secondary.lastChangelistIndex
          (ledgerW.secondary.changeHistory
            (ledgerW.secondary.historyEnd % MAX_CHANGE_HISTORY)) :=
  ledger_retirement_after_merge ledgerW false [] (by decide) (by decide)
    (fun i h1 h2 => by
      have h2a : i < 1 := h2
      have hi : i = 0 := by omega
      subst hi
      decide)

/-- The handover-diff theorem evaluated on the two concrete handover properties of
`handoverPropsW`, an object whose byte at address `a` is `a + 1` and an all-zero
shadow buffer. -/
theorem getHandoverChangeList_correct_witness :
    ((getHandoverChangeList false (fun a => a + 1) handoverPropsW (fun _ => 0)).1 =
      handoverChangedSpec (fun a => a + 1) (fun _ => 0) handoverPropsW) ∧
    (∀ pz ∈ handoverPropsW.zip (handoverShadowOffsets handoverPropsW 0),
      readBytes (getHandoverChangeList false (fun a => a + 1) handoverPropsW
        (fun _ => 0)).2 pz.2 pz.1.elementSize =
        readBytes (fun a => a + 1) pz.1.offset pz.1.elementSize) ∧
    ((getHandoverChangeList true (fun a => a + 1) handoverPropsW (fun _ => 0)).1 =
      handoverPropsW.map (fun p => p.handle)) ∧
    (∀ pz ∈ handoverPropsW.zip (handoverShadowOffsets handoverPropsW 0),
      readBytes (getHandoverChangeList true (fun a => a + 1) handoverPropsW
        (fun _ => 0)).2 pz.2 pz.1.elementSize =
        readBytes (fun a => a + 1) pz.1.offset pz.1.elementSize) :=
  getHandoverChangeList_correct handoverPropsW (fun a => a + 1) (fun _ => 0) (by decide)

/-- The initial-change-state theorem evaluated on the concrete layout `chunksW`. -/
theorem initial_change_state_array_markers_witness :
    createInitialRepChangeState (toRepLayoutCmds chunksW) = initialRepChangeSpec chunksW ∧
    (∀ h interior, chunkEmit (RepLayoutChunk.arr h interior) =
      h :: interior.length :: (interior.map (·.relativeHandle) ++ [0])) :=
  initial_change_state_array_markers chunksW (by
    intro c hc h interior he
    simp only [chunksW] at hc
    rcases List.mem_cons.mp hc with h1 | h1
    · subst h1
      cases he
    · rcases List.mem_cons.mp h1 with h2 | h2
      · subst h2
        cases he
        decide
      · rcases List.mem_cons.mp h2 with h3 | h3
        · subst h3
          cases he
        · cases h3)

/-- The creation-failure-retry theorem evaluated on a channel with entity id `5`
and failure responses with status code `0`. -/
theorem entity_creation_failure_retries_witness :
    onReserveEntityIdResponse true ⟨5⟩ ⟨0, 42⟩ =
      (⟨5⟩, [ResponseAction.logError, ResponseAction.sendReserveEntityIdRequest]) ∧
    onCreateEntityResponse true (fun st => [st.entityId, 100]) ⟨5⟩ ⟨0⟩ =
      (⟨5⟩, [ResponseAction.logError,
        ResponseAction.sendCreateEntityRequest [5, 100]]) :=
  entity_creation_failure_retries ⟨5⟩ (fun st => [st.entityId, 100]) ⟨0, 42⟩ ⟨0⟩
    (by decide) (by decide)

end SpatialGDK
